import Mathlib

/-!
Verification development for the feature-computation and caching pipeline of
`open_combind` (files `open_combind/features/features.py` and
`open_combind/dock/dock.py`).

The Python code is shallowly embedded:

* file paths and array names are Lean `String`s;
* numpy arrays become Lean lists; floating point payloads (docking scores,
  RMSD values, similarity entries) are modelled as `Int` — none of the
  orchestration logic verified here performs arithmetic on them, they are
  opaque data with the single distinguished sentinel value `-1`;
* the on-disk feature store becomes an association list from path to value;
  `np.save` overwrites in place, a cache hit is presence of the key;
* external collaborators (pose-file reader, `obrms` subprocess, fingerprint
  engine, similarity metrics) are fields of a `World` record; a failing
  subprocess is `Option.none`;
* Python string helpers (`str.split`, `str.replace`, `os.path.basename`)
  are re-implemented with fuel-based structural recursion so that they
  reduce inside the kernel.
-/

/-! ## Python string helpers -/

/-- One splitting step list, on `Char` lists: leftmost, non-overlapping
occurrences of `sep`, like Python `str.split(sep)` for a non-empty `sep`.
The `Nat` argument is fuel (an upper bound on the number of characters
consumed), making the recursion structural. -/
def splitChars (sep : List Char) : Nat → List Char → List Char → List (List Char)
  | 0, s, cur => [cur.reverse ++ s]
  | Nat.succ n, s, cur =>
    match s with
    | [] => [cur.reverse]
    | c :: rest =>
      if sep.isPrefixOf (c :: rest) then
        cur.reverse :: splitChars sep n ((c :: rest).drop sep.length) []
      else
        splitChars sep n rest (c :: cur)

/-- Python `s.split(sep)` for non-empty `sep` (the only way the sources use it). -/
def pySplit (s sep : String) : List String :=
  if sep.data.length = 0 then [s]
  else (splitChars sep.data s.data.length s.data []).map (fun cs => String.mk cs)

/-- Join a list of strings with a separator. -/
def joinSep (sep : String) : List String → String
  | [] => ""
  | [x] => x
  | x :: y :: xs => x ++ sep ++ joinSep sep (y :: xs)

/-- Python `s.replace(pat, rep)`: non-overlapping leftmost occurrences of a
non-empty `pat` replaced by `rep`; identical to `rep.join(s.split(pat))`. -/
def pyReplace (s pat rep : String) : String :=
  joinSep rep (pySplit s pat)

/-- Python `os.path.basename`: the part after the last `/`. -/
def pyBasename (s : String) : String :=
  (pySplit s "/").getLastD ""

/-! ## Data model -/

/-- One docked pose as read from a pose-viewer file: its `_Name` property and
its `CNNaffinity` property (modelled as `Int`). -/
structure Pose where
  name : String
  affinity : Int
deriving DecidableEq, Repr

/-- One row of the tabular interaction-fingerprint file: the `pose` index
column plus an opaque payload standing for the remaining columns. -/
structure IFPRow where
  pose : Nat
  payload : String
deriving DecidableEq, Repr

/-- A value stored in an on-disk artifact: a numeric `.npy` array, a string
`.npy` array, the fingerprint `.csv` table, or a 2-D pairwise matrix. -/
inductive Val where
  | nums : List Int → Val
  | strs : List String → Val
  | rows : List IFPRow → Val
  | mat : List (List Int) → Val
deriving DecidableEq, Repr

/-- The on-disk feature store: an association list from path to content. -/
abbrev Store := List (String × Val)

/-- Look up a path in the store. -/
def Store.find : Store → String → Option Val
  | [], _ => none
  | (q, v) :: rest, p => if q = p then some v else Store.find rest p

/-- `os.path.exists` for the store. -/
def Store.mem (s : Store) (p : String) : Bool :=
  (s.find p).isSome

/-- `np.save`: write a value at a path, overwriting in place. -/
def Store.save : Store → String → Val → Store
  | [], p, v => [(p, v)]
  | (q, w) :: rest, p, v =>
    if q = p then (p, v) :: rest else (q, w) :: Store.save rest p v

/-- The external world: pose-file contents, the `obrms` subprocess (`none`
models a failed invocation or unparsable output), the fingerprint engine, and
the three pairwise similarity metrics. -/
structure World where
  pvContents : String → List Pose
  obrms : String → String → Option (List Int)
  ifpTable : String → Nat → List IFPRow
  ifpSim : String → List IFPRow → List IFPRow → Int
  shapeSim : Pose → Pose → Int
  mcssSim : Pose → Pose → Int

/-- The `Features` object after `__init__` ran.  `pv_root` is the state of
the instance attribute of the same name: `none` when `__init__` never
assigned it (which happens exactly when a non-`None` `pv_root` argument was
passed, see `Features.init`). -/
structure Features where
  root : String
  ifp_version : String
  max_poses : Nat
  ifp_features : List String
  pv_root : Option String
deriving DecidableEq, Repr

/-- `Features.__init__`: the attribute `pv_root` is assigned only inside the
`if pv_root is None:` branch; an explicit argument leaves it unset. -/
def Features.init (root ifp_version : String) (max_poses : Nat)
    (pv_rootArg : Option String) (ifp_features : List String) : Features :=
  { root := root
    ifp_version := ifp_version
    max_poses := max_poses
    ifp_features := ifp_features
    pv_root :=
      match pv_rootArg with
      | none => some (root ++ "/docking")
      | some _ => none }

/-- List of the single-source feature kinds (the names `path` resolves
against a pose-viewer file). -/
def singleKinds : List String := ["rmsd", "gscore", "name", "ifp"]

/-- `Features.path` for a single-source kind, assuming the `pv_root`
attribute holds its only reachable value `root + '/docking'` (so the
dead `replace` branch is skipped); mirrors the suffix-replacement dispatch
of the source.  Collection-scoped names fall through to `root/<name>.npy`. -/
def Features.spath (f : Features) (name : String) (pv : String) : String :=
  if name = "rmsd" then pyReplace pv ".sdf.gz" "_rmsd.npy"
  else if name = "gscore" then pyReplace pv ".sdf.gz" "_gscore.npy"
  else if name = "name" then pyReplace pv ".sdf.gz" "_name.npy"
  else if name = "ifp" then pyReplace pv ".sdf.gz" ("_ifp_" ++ f.ifp_version ++ ".csv")
  else if name = "shape" then f.root ++ "/shape.npy"
  else if name = "mcss" then f.root ++ "/mcss.npy"
  else f.root ++ "/" ++ name ++ ".npy"

/-- `Features.path` for a collection-scoped name (`pv` is `None` in the
source at these call sites). -/
def Features.pairPath (f : Features) (name : String) : String :=
  if name = "shape" then f.root ++ "/shape.npy"
  else if name = "mcss" then f.root ++ "/mcss.npy"
  else f.root ++ "/" ++ name ++ ".npy"

/-- `Features.path` with the attribute lookup made explicit.  Reading the
unset `pv_root` attribute raises `AttributeError`; the `base=True` early
return happens before that read.  The `pv_root != root+'/docking'` branch,
reachable only in principle, immediately raises `TypeError` in the source
(`pv.replace` called with one argument / tuple assignment); it is modelled
as that error. -/
def Features.path (f : Features) (name : String) (base : Bool)
    (pv pv2 : Option String) : Except String String :=
  if base then .ok (f.root ++ "/" ++ name)
  else
    match f.pv_root with
    | none => .error "AttributeError"
    | some pvr =>
      if pvr = f.root ++ "/docking" then
        if name = "rmsd" ∨ name = "gscore" ∨ name = "name" ∨ name = "ifp" then
          match pv with
          | none => .error "AttributeError"
          | some p => .ok (f.spath name p)
        else
          .ok (f.pairPath name)
      else
        match pv, pv2 with
        | _, _ => .error "TypeError"

/-! ## Single-feature computation (`compute_gscore`, `compute_name`,
`compute_rmsd`, `compute_ifp`) -/

/-- The append-then-`break` loop idiom `if len(acc) == cap: break`: for
`cap = 0` the test never fires (the length is already 1 after the first
append), otherwise the first `cap` elements are kept. -/
def capAppend {α : Type} (cap : Nat) (xs : List α) : List α :=
  if cap = 0 then xs else xs.take cap

/-- `compute_gscore`: CNNaffinity of each pose, capped at `max_poses`. -/
def Features.compute_gscore_list (f : Features) (w : World) (pv : String) : List Int :=
  capAppend f.max_poses ((w.pvContents pv).map (fun st => st.affinity))

/-- The `-to-` suffix of a pose-viewer file name:
`os.path.basename(pv).split('.')[0].split('-to-')[-1]`. -/
def dockedToOf (pv : String) : String :=
  ((pySplit (pyBasename pv) ".").headD "" |> fun s => (pySplit s "-to-").getLastD "")

/-- `compute_name`: one string `{_Name}_{idx}-to-{docked_to}` per pose, where
`idx` is the `enumerate` index over the whole file, capped at `max_poses`. -/
def Features.compute_name_list (f : Features) (w : World) (pv : String) : List String :=
  capAppend f.max_poses
    (((w.pvContents pv).enum).map
      (fun p => p.2.name ++ "_" ++ toString p.1 ++ "-to-" ++ dockedToOf pv))

/-- The ligand name `compute_rmsd` derives from the pose-viewer file name:
`pv.split('/')[-1].split('-')[0]`. -/
def ligandOf (pv : String) : String :=
  (pySplit ((pySplit pv "/").getLastD "") "-").headD ""

/-- `compute_rmsd`: with a reference entry, run `obrms` (`none` = the bare
`except:` fired, leaving the initial `rmsds = []`); without one, a sentinel
array of `max_poses` copies of `-1`. -/
def Features.compute_rmsd_list (f : Features) (w : World)
    (native_poses : List (String × String)) (pv : String) : List Int :=
  match native_poses.lookup (ligandOf pv) with
  | some native =>
    match w.obrms native pv with
    | some rs => rs
    | none => []
  | none => List.replicate f.max_poses (-1)

/-- `compute_ifp`: delegate to the external fingerprint engine.
Modelled from the spec: the engine `features.ifp.ifp` is part of the
repository but not under `src/`; per the spec it produces "a tabular
per-pose-per-contact record file (one row per pose×interaction) with a
`pose` index column", "capped at max-poses". -/
def Features.compute_ifp_rows (f : Features) (w : World) (pv : String) : List IFPRow :=
  w.ifpTable pv f.max_poses

/-- The artifact value each of the four `compute_single_features` loops
writes for one pose-viewer file. -/
def Features.artifactVal (f : Features) (w : World)
    (native_poses : List (String × String)) (kind : String) (pv : String) : Val :=
  if kind = "gscore" then .nums (f.compute_gscore_list w pv)
  else if kind = "name" then .strs (f.compute_name_list w pv)
  else if kind = "rmsd" then .nums (f.compute_rmsd_list w native_poses pv)
  else .rows (f.compute_ifp_rows w pv)

/-- The `if not os.path.exists(out): compute(...)` idiom.  The second
component of the state is the log of paths actually written, so that
"no recomputation happened" is "the log is empty". -/
def writeIfAbsent (p : String) (v : Val) : Store × List String → Store × List String
  | (s, log) => if s.mem p then (s, log) else (s.save p v, log ++ [p])

/-- A skip-if-cached loop: fold `writeIfAbsent` over a list of work items,
with a path function and a value function. -/
def foldWIA {α : Type} (pf : α → String) (vf : α → Val) (xs : List α)
    (acc : Store × List String) : Store × List String :=
  xs.foldl (fun a x => writeIfAbsent (pf x) (vf x) a) acc

/-- One of the four loops of `compute_single_features`. -/
def Features.computeLoop (f : Features) (w : World)
    (native_poses : List (String × String)) (kind : String) (pvs : List String)
    (acc : Store × List String) : Store × List String :=
  foldWIA (f.spath kind) (f.artifactVal w native_poses kind) pvs acc

/-- `compute_single_features`: the four skip-if-cached loops, in source
order (gscore, name, rmsd, ifp).  Pose-viewer paths are taken as already
absolute (`os.path.abspath` is the identity on them) and already flattened. -/
def Features.compute_single_features (f : Features) (w : World)
    (pvs : List String) (native_poses : List (String × String)) (s : Store) :
    Store × List String :=
  f.computeLoop w native_poses "ifp" pvs
    (f.computeLoop w native_poses "rmsd" pvs
      (f.computeLoop w native_poses "name" pvs
        (f.computeLoop w native_poses "gscore" pvs (s, []))))

/-! ## Pose loading (`load_single_features`) -/

/-- The five index-aligned per-pose sequences returned by the loader. -/
structure SingleFeats where
  rmsds : List Int
  gscores : List Int
  poses : List Pose
  names : List String
  ifps : List (List IFPRow)
deriving DecidableEq, Repr

/-- Concatenation of loader outputs across pose sources (`+=` / `np.hstack`). -/
def SingleFeats.append (a b : SingleFeats) : SingleFeats :=
  { rmsds := a.rmsds ++ b.rmsds
    gscores := a.gscores ++ b.gscores
    poses := a.poses ++ b.poses
    names := a.names ++ b.names
    ifps := a.ifps ++ b.ifps }

/-- The retained indices of one pose source: index `i` is kept iff the
ligand filter admits `names[i]` and fewer than `max_poses` earlier entries
of the name array equal `names[i]`
(`sum(_names[:i] == _names[i]) < self.max_poses`). -/
def keepIdx (cap : Nat) (lig : Option (List String)) (names : List String) : List Nat :=
  (List.range names.length).filter fun i =>
    (match lig with
     | none => true
     | some ls => decide (names.getD i "" ∈ ls))
    && decide ((names.take i).count (names.getD i "") < cap)

/-- Fancy indexing `xs[keep]` / the comprehension `[xs[i] for i in keep]`:
`none` models the `IndexError` raised when an index is out of range. -/
def selectIdx {α : Type} (xs : List α) : List Nat → Option (List α)
  | [] => some []
  | i :: rest =>
    match xs.get? i, selectIdx xs rest with
    | some x, some more => some (x :: more)
    | _, _ => none

/-- `np.load` of a numeric artifact (`FileNotFoundError` / wrong dtype are
load failures). -/
def loadNums (s : Store) (p : String) : Except String (List Int) :=
  match s.find p with
  | some (.nums xs) => .ok xs
  | _ => .error ("load " ++ p)

/-- `np.load` of a string artifact. -/
def loadStrs (s : Store) (p : String) : Except String (List String) :=
  match s.find p with
  | some (.strs xs) => .ok xs
  | _ => .error ("load " ++ p)

/-- `pd.read_csv` of the fingerprint table. -/
def loadRows (s : Store) (p : String) : Except String (List IFPRow) :=
  match s.find p with
  | some (.rows xs) => .ok xs
  | _ => .error ("load " ++ p)

/-- Maximum of the `pose` column. -/
def maxPose (rows : List IFPRow) : Nat :=
  rows.foldl (fun m r => max m r.pose) 0

/-- `[_ifps.loc[_ifps.pose==p] for p in range(max(_ifps.pose)+1)]`; `max`
of an empty column raises, modelled as `none`. -/
def groupRows (rows : List IFPRow) : Option (List (List IFPRow)) :=
  match rows with
  | [] => none
  | _ => some ((List.range (maxPose rows + 1)).map (fun p => rows.filter (fun r => r.pose == p)))

/-- Lift an `Option` into the loader's error monad. -/
def orErr {α : Type} (msg : String) : Option α → Except String α
  | some a => .ok a
  | none => .error msg

/-- The per-source body of `load_single_features`. -/
def Features.loadOne (f : Features) (s : Store) (w : World)
    (ligands : Option (List String)) (pv : String) : Except String SingleFeats := do
  let rmsds ← loadNums s (f.spath "rmsd" pv)
  let gscores ← loadNums s (f.spath "gscore" pv)
  let names ← loadStrs s (f.spath "name" pv)
  let rows ← loadRows s (f.spath "ifp" pv)
  let ifps ← orErr "max of empty pose column" (groupRows rows)
  let poses := w.pvContents pv
  let keep := keepIdx f.max_poses ligands names
  let rmsds ← orErr "IndexError" (selectIdx rmsds keep)
  let gscores ← orErr "IndexError" (selectIdx gscores keep)
  let names ← orErr "IndexError" (selectIdx names keep)
  let poses ← orErr "IndexError" (selectIdx poses keep)
  let ifps ← orErr "IndexError" (selectIdx ifps keep)
  .ok { rmsds := rmsds, gscores := gscores, poses := poses, names := names, ifps := ifps }

/-- `load_single_features`: each source independently filtered, outputs
concatenated in the order given. -/
def Features.load_single_features (f : Features) (s : Store) (w : World)
    (ligands : Option (List String)) : List String → Except String SingleFeats
  | [] => .ok { rmsds := [], gscores := [], poses := [], names := [], ifps := [] }
  | pv :: rest => do
    let one ← f.loadOne s w ligands pv
    let more ← f.load_single_features s w ligands rest
    .ok (one.append more)

/-! ## Pair features (`compute_pair_features`) -/

/-- Modelled from the spec: `features.ifp_similarity.ifp_tanimoto` (repository
code not under `src/`); per the spec it returns the dense matrix of
interaction-similarity values for one interaction type between the
fingerprint rows of collection 1 (rows) and collection 2 (columns). -/
def ifpPairMat (w : World) (feat : String) (i1 i2 : List (List IFPRow)) : List (List Int) :=
  i1.map (fun r1 => i2.map (fun r2 => w.ifpSim feat r1 r2))

/-- Modelled from the spec: `features.shape.shape` (repository code not under
`src/`); per the spec it returns a dense similarity matrix with one row per
pose of its first argument and one column per pose of its second. -/
def shapeMat (w : World) (a b : List Pose) : List (List Int) :=
  a.map (fun x => b.map (fun y => w.shapeSim x y))

/-- Modelled from the spec: `features.mcss.mcss` (repository code not under
`src/`); per the spec it returns one matrix between the two pose collections
(rows = first argument, columns = second). -/
def mcssMat (w : World) (a b : List Pose) : List (List Int) :=
  a.map (fun x => b.map (fun y => w.mcssSim x y))

/-- numpy `.T` on a rectangular 2-D array. -/
def transposeRect (m : List (List Int)) : List (List Int) :=
  (List.range (m.headD []).length).map (fun j => m.map (fun row => row.getD j 0))

/-- `np.save` with the write recorded in the log (the source calls it
unconditionally for the merged arrays). -/
def saveLogged (p : String) (v : Val) : Store × List String → Store × List String
  | (s, log) => (s.save p v, log ++ [p])

/-- `compute_pair_features`: load collection 1, persist its merged arrays
unconditionally; with `pvs2 = none` collection 2 is collection 1 and no `*2`
arrays are saved, otherwise load and persist collection 2; then one
skip-if-cached pairwise matrix per enabled family, in source order
(interaction types, shape, mcss).  `compute_shape` transposes
`shape(poses2, poses1)`. -/
def Features.compute_pair_features (f : Features) (w : World) (s : Store)
    (pvs : List String) (pvs2 : Option (List String)) (ifp shape mcss : Bool) :
    Except String (Store × List String) := do
  let d1 ← f.load_single_features s w none pvs
  let acc := saveLogged (f.pairPath "rmsd1") (.nums d1.rmsds) (s, [])
  let acc := saveLogged (f.pairPath "gscore1") (.nums d1.gscores) acc
  let acc := saveLogged (f.pairPath "name1") (.strs d1.names) acc
  let r2 ←
    match pvs2 with
    | none => Except.ok (acc, d1)
    | some ps => do
      let d2 ← f.load_single_features acc.1 w none ps
      let acc := saveLogged (f.pairPath "rmsd2") (.nums d2.rmsds) acc
      let acc := saveLogged (f.pairPath "gscore2") (.nums d2.gscores) acc
      let acc := saveLogged (f.pairPath "name2") (.strs d2.names) acc
      Except.ok (acc, d2)
  let acc := r2.1
  let d2 := r2.2
  let acc :=
    if ifp then
      foldWIA f.pairPath (fun feat => .mat (ifpPairMat w feat d1.ifps d2.ifps)) f.ifp_features acc
    else acc
  let acc :=
    if shape then
      writeIfAbsent (f.pairPath "shape") (.mat (transposeRect (shapeMat w d2.poses d1.poses))) acc
    else acc
  let acc :=
    if mcss then
      writeIfAbsent (f.pairPath "mcss") (.mat (mcssMat w d1.poses d2.poses)) acc
    else acc
  .ok acc

/-! ## Feature view (`get_view`) -/

/-- The nested mapping `get_view` builds (dictionaries become association
lists, insertion in loop order). -/
structure View where
  gscore : List (String × List Int)
  rmsd : List (String × List Int)
  pairs : List (String × List ((String × String) × List (List Int)))
deriving Repr

/-- The boolean mask `self.raw['name1'] == ligand`. -/
def maskOf (names : List String) (lig : String) : List Bool :=
  names.map (fun nm => nm == lig)

/-- numpy boolean-mask indexing `xs[mask]`; `none` models the `IndexError`
when the mask length does not match. -/
def sliceByMask {α : Type} (mask : List Bool) (xs : List α) : Option (List α) :=
  if xs.length = mask.length then
    some (((mask.zip xs).filter (fun p => p.1)).map (fun p => p.2))
  else none

/-- The first loop of `get_view`: per requested ligand, assert the mask is
non-empty, then slice `gscore1` and `rmsd1`. -/
def viewScalars (n1 : List String) (g1 r1 : List Int) :
    List String → Except String (List (String × List Int) × List (String × List Int))
  | [] => .ok ([], [])
  | lig :: rest => do
    let mask := maskOf n1 lig
    if mask.count true = 0 then
      .error "AssertionError"
    else do
      let gs ← orErr "IndexError" (sliceByMask mask g1)
      let rs ← orErr "IndexError" (sliceByMask mask r1)
      let more ← viewScalars n1 g1 r1 rest
      .ok ((lig, gs) :: more.1, (lig, rs) :: more.2)

/-- The ordered pairs `(ligands[i], ligands[j])` with `i < j` in input order. -/
def ligandPairs : List String → List (String × String)
  | [] => []
  | l :: rest => rest.map (fun l2 => (l, l2)) ++ ligandPairs rest

/-- `raw[feature][mask1, :][:, mask2]`. -/
def slicePair (n1 : List String) (m : List (List Int)) (lig1 lig2 : String) :
    Option (List (List Int)) := do
  let rows ← sliceByMask (maskOf n1 lig1) m
  rows.mapM (fun row => sliceByMask (maskOf n1 lig2) row)

/-- The pair loop of `get_view` for one feature. -/
def viewPairsOne (n1 : List String) (m : List (List Int)) :
    List (String × String) → Except String (List ((String × String) × List (List Int)))
  | [] => .ok []
  | (l1, l2) :: rest => do
    let block ← orErr "IndexError" (slicePair n1 m l1 l2)
    let more ← viewPairsOne n1 m rest
    .ok (((l1, l2), block) :: more)

/-- The feature loop of `get_view`. -/
def viewPairs (raw : Store) (n1 : List String) (ligands : List String) :
    List String → Except String (List (String × List ((String × String) × List (List Int))))
  | [] => .ok []
  | feat :: rest => do
    let m ←
      match raw.find feat with
      | some (.mat m) => Except.ok m
      | _ => Except.error ("KeyError " ++ feat)
    let blocks ← viewPairsOne n1 m (ligandPairs ligands)
    let more ← viewPairs raw n1 ligands rest
    .ok ((feat, blocks) :: more)

/-- `get_view` over the in-memory `self.raw` dictionary (keys are the
filename stems `load_features` produced, e.g. `name1`). -/
def Features.get_view (raw : Store) (ligands features : List String) :
    Except String View := do
  let n1 ← loadStrs raw "name1"
  let g1 ← loadNums raw "gscore1"
  let r1 ← loadNums raw "rmsd1"
  let scal ← viewScalars n1 g1 r1 ligands
  let prs ← viewPairs raw n1 ligands features
  .ok { gscore := scal.1, rmsd := scal.2, pairs := prs }

/-! ## Docking batch construction (`dock.py`) -/

/-- `docking_failed`: with the failure-phrase list still empty in the source,
`any()` over it is always `False`. -/
def docking_failed (logExists : Bool) (logtxt : String) : Bool :=
  if !logExists then false
  else ([] : List String).any (fun phrase => (pySplit logtxt phrase).length > 1)

/-- The unformatted output template of `dock`. -/
def dockOutfileTemplate : String := "docked/{inlig}-docked.sdf.gz"

/-- `dock_line.format(lig=..., out=..., exh=..., log=...)`. -/
def formatDockLine (dockLine lig out : String) (exh : Nat) (log : String) : String :=
  pyReplace (pyReplace (pyReplace (pyReplace dockLine "{lig}" lig) "{out}" out)
    "{exh}" (toString exh)) "{log}" log

/-- The body of `dock`'s write loop over `zip(ligands, root, name)`: the
skip check tests existence of the literal template string `outfile`, and a
hit `return`s out of the whole function (an empty remaining write list).
`readLog` supplies log-file contents for `docking_failed`. -/
def dockWrites (fs : List String) (readLog : String → String) (enhanced : Bool)
    (recname dockLine : String) (exh : Nat) :
    List (String × String × String) → List String
  | [] => []
  | (lig, _r, n) :: rest =>
    let out := pyReplace dockOutfileTemplate "{inlig}" n
    let gnina_log := recname ++ "_" ++ n ++ ".log"
    if fs.contains dockOutfileTemplate then []
    else if enhanced && docking_failed (fs.contains gnina_log) (readLog gnina_log) then []
    else formatDockLine dockLine lig out exh gnina_log ::
      dockWrites fs readLog enhanced recname dockLine exh rest

/-! ## Derived path collections and shapes -/

/-- The six fixed names under which `compute_pair_features` persists the
merged per-pose arrays. -/
def Features.mergedPaths (f : Features) : List String :=
  [f.pairPath "rmsd1", f.pairPath "gscore1", f.pairPath "name1",
   f.pairPath "rmsd2", f.pairPath "gscore2", f.pairPath "name2"]

/-- The paths of the pairwise similarity matrices. -/
def Features.matrixPaths (f : Features) : List String :=
  f.ifp_features.map f.pairPath ++ [f.pairPath "shape", f.pairPath "mcss"]

/-- Every path `compute_pair_features` can write to. -/
def Features.pairPathsAll (f : Features) : List String :=
  f.mergedPaths ++ f.matrixPaths

/-- The write log of a `compute_pair_features` call whose pairwise matrices
are all cache hits: exactly the unconditional merged-array saves. -/
def Features.mergedLog (f : Features) (pvs2 : Option (List String)) : List String :=
  [f.pairPath "rmsd1", f.pairPath "gscore1", f.pairPath "name1"] ++
    match pvs2 with
    | none => []
    | some _ => [f.pairPath "rmsd2", f.pairPath "gscore2", f.pairPath "name2"]

/-- The persisted name array of one pose source, as the loader reads it. -/
def Features.namesArtifact (f : Features) (s : Store) (pv : String) : List String :=
  match s.find (f.spath "name" pv) with
  | some (.strs ns) => ns
  | _ => []

/-- A 2-D array is square with dimension `n`. -/
def IsSquareOfDim (m : List (List Int)) (n : Nat) : Prop :=
  m.length = n ∧ ∀ row ∈ m, row.length = n

/-! ## Concrete instances for witnesses and counterexamples -/

/-- A tiny world: one pose-viewer file holding one pose of ligand `A` and one
of ligand `B`, a failing `obrms`, and a two-row fingerprint table. -/
def exWorld : World :=
  { pvContents := fun _ => [⟨"A", 5⟩, ⟨"B", 6⟩]
    obrms := fun _ _ => none
    ifpTable := fun _ _ => [⟨0, "r"⟩, ⟨1, "q"⟩]
    ifpSim := fun _ _ _ => 7
    shapeSim := fun _ _ => 8
    mcssSim := fun _ _ => 9 }

/-- A `Features` instance with the default (`None`) `pv_root` argument. -/
def exFeatures : Features := Features.init "R" "rd1" 10 none ["hbond"]

/-- The pose-viewer path of the example. -/
def exPV : String := "R/docking/L1-to-X.sdf.gz"

/-- The store after a first `compute_single_features` run on an empty store:
all four single-source artifacts cached. -/
def exStoreSingles : Store :=
  (exFeatures.compute_single_features exWorld [exPV] [] []).1

/-- The store after a first `compute_pair_features` run (all matrix families
disabled) on top of the cached single-source artifacts. -/
def exStorePair : Store :=
  match exFeatures.compute_pair_features exWorld exStoreSingles [exPV] none false false false with
  | .ok (s, _) => s
  | .error _ => []

/-- The store after a first `compute_pair_features` run with all three
matrix families enabled. -/
def exStorePairFull : Store :=
  match exFeatures.compute_pair_features exWorld exStoreSingles [exPV] none true true true with
  | .ok (s, _) => s
  | .error _ => []

/-- A world whose single pose source holds three poses of ligand `A`
followed by two poses of ligand `B` (the spec's concrete scenario). -/
def exWorldAB : World :=
  { pvContents := fun _ => [⟨"A", 5⟩, ⟨"A", 4⟩, ⟨"A", 3⟩, ⟨"B", 6⟩, ⟨"B", 5⟩]
    obrms := fun _ _ => none
    ifpTable := fun _ _ => [⟨0, "r"⟩, ⟨1, "q"⟩, ⟨2, "s"⟩, ⟨3, "t"⟩, ⟨4, "u"⟩]
    ifpSim := fun _ _ _ => 7
    shapeSim := fun _ _ => 8
    mcssSim := fun _ _ => 9 }

/-- An in-memory `raw` dictionary for `get_view`: ligand `A` has two poses,
ligand `B` one. -/
def exRaw : Store :=
  [("name1", .strs ["A", "A", "B"]), ("gscore1", .nums [1, 2, 3]),
   ("rmsd1", .nums [4, 5, 6])]

/-- The loader output for `exPV` against the cached artifacts. -/
def exLoaded : SingleFeats :=
  { rmsds := [-1, -1]
    gscores := [5, 6]
    poses := [⟨"A", 5⟩, ⟨"B", 6⟩]
    names := ["A_0-to-X", "B_1-to-X"]
    ifps := [[⟨0, "r"⟩], [⟨1, "q"⟩]] }

/-- The accumulator after the three unconditional merged-array saves for
collection 1 (`rmsd1`, `gscore1`, `name1`) in `compute_pair_features`. -/
def Features.merged1Acc (f : Features) (s : Store) (d1 : SingleFeats) :
    Store × List String :=
  saveLogged (f.pairPath "name1") (.strs d1.names)
    (saveLogged (f.pairPath "gscore1") (.nums d1.gscores)
      (saveLogged (f.pairPath "rmsd1") (.nums d1.rmsds) (s, [])))

/-- The accumulator after the three unconditional merged-array saves for
collection 2 (`rmsd2`, `gscore2`, `name2`). -/
def Features.merged2Acc (f : Features) (acc : Store × List String) (d2 : SingleFeats) :
    Store × List String :=
  saveLogged (f.pairPath "name2") (.strs d2.names)
    (saveLogged (f.pairPath "gscore2") (.nums d2.gscores)
      (saveLogged (f.pairPath "rmsd2") (.nums d2.rmsds) acc))

/-- The (path, value) work items of the skip-if-cached matrix stage of
`compute_pair_features`, in execution order. -/
def matrixItems (f : Features) (w : World) (d1 d2 : SingleFeats)
    (ifp shape mcss : Bool) : List (String × Val) :=
  (if ifp then f.ifp_features.map
      (fun feat => (f.pairPath feat, Val.mat (ifpPairMat w feat d1.ifps d2.ifps)))
    else []) ++
  (if shape then [(f.pairPath "shape", Val.mat (transposeRect (shapeMat w d2.poses d1.poses)))]
    else []) ++
  (if mcss then [(f.pairPath "mcss", Val.mat (mcssMat w d1.poses d2.poses))]
    else [])

/-! ## Store lemmas -/

theorem Store.find_save_self (s : Store) (p : String) (v : Val) :
    (s.save p v).find p = some v := by
  induction s with
  | nil => simp [Store.save, Store.find]
  | cons hd tl ih =>
    obtain ⟨q0, w0⟩ := hd
    by_cases h : q0 = p
    · simp [Store.save, Store.find, h]
    · simp [Store.save, Store.find, h, ih]

theorem Store.find_save_ne (s : Store) (p q : String) (v : Val) (h : q ≠ p) :
    (s.save p v).find q = s.find q := by
  have hpq : ¬ p = q := fun hh => h hh.symm
  induction s with
  | nil => simp [Store.save, Store.find, hpq]
  | cons hd tl ih =>
    obtain ⟨q0, w0⟩ := hd
    by_cases h1 : q0 = p
    · subst h1
      simp [Store.save, Store.find, hpq]
    · by_cases h2 : q0 = q <;> simp [Store.save, Store.find, h, h1, h2, ih]

theorem Store.save_find_self (s : Store) (p : String) (v : Val)
    (h : s.find p = some v) : s.save p v = s := by
  induction s with
  | nil => simp [Store.find] at h
  | cons hd tl ih =>
    obtain ⟨q0, w0⟩ := hd
    by_cases h1 : q0 = p
    · subst h1
      simp [Store.find] at h
      simp [Store.save, ← h]
    · simp [Store.find, h1] at h
      simp [Store.save, h1, ih h]

theorem Store.mem_save_mono (s : Store) (p q : String) (v : Val)
    (h : s.mem q = true) : (s.save p v).mem q = true := by
  by_cases hpq : q = p
  · subst hpq; simp [Store.mem, Store.find_save_self]
  · simpa [Store.mem, Store.find_save_ne s p q v hpq] using h

theorem Store.mem_save_self (s : Store) (p : String) (v : Val) :
    (s.save p v).mem p = true := by
  simp [Store.mem, Store.find_save_self]

/-! ## writeIfAbsent lemmas -/

theorem writeIfAbsent_of_mem (p : String) (v : Val) (a : Store × List String)
    (h : a.1.mem p = true) : writeIfAbsent p v a = a := by
  obtain ⟨s, log⟩ := a
  simp only [writeIfAbsent]
  simp_all

theorem writeIfAbsent_mem_self (p : String) (v : Val) (a : Store × List String) :
    ((writeIfAbsent p v a).1).mem p = true := by
  obtain ⟨s, log⟩ := a
  by_cases h : s.mem p = true
  · simp [writeIfAbsent, h]
  · simp only [Bool.not_eq_true] at h
    simp [writeIfAbsent, h, Store.mem_save_self]

theorem writeIfAbsent_mem_mono (p q : String) (v : Val) (a : Store × List String)
    (h : a.1.mem q = true) : ((writeIfAbsent p v a).1).mem q = true := by
  obtain ⟨s, log⟩ := a
  by_cases hm : s.mem p = true
  · simp [writeIfAbsent, hm]
    exact h
  · simp only [Bool.not_eq_true] at hm
    simp only [writeIfAbsent, hm]
    simpa using Store.mem_save_mono s p q v h

theorem writeIfAbsent_find_of_mem (p q : String) (v : Val) (a : Store × List String)
    (h : a.1.mem q = true) : ((writeIfAbsent p v a).1).find q = a.1.find q := by
  obtain ⟨s, log⟩ := a
  by_cases hm : s.mem p = true
  · simp [writeIfAbsent, hm]
  · simp only [Bool.not_eq_true] at hm
    have hpq : q ≠ p := by
      intro hh
      subst hh
      simp only [Store.mem] at h hm
      rw [hm] at h
      simp at h
    simp [writeIfAbsent, hm, Store.find_save_ne s p q v hpq]

theorem writeIfAbsent_find_ne (p q : String) (v : Val) (a : Store × List String)
    (h : q ≠ p) : ((writeIfAbsent p v a).1).find q = a.1.find q := by
  obtain ⟨s, log⟩ := a
  by_cases hm : s.mem p = true
  · simp [writeIfAbsent, hm]
  · simp only [Bool.not_eq_true] at hm
    simp [writeIfAbsent, hm, Store.find_save_ne s p q v h]

theorem writeIfAbsent_log (p : String) (v : Val) (a : Store × List String) (q : String)
    (h : q ∈ (writeIfAbsent p v a).2) : q ∈ a.2 ∨ q = p := by
  obtain ⟨s, log⟩ := a
  by_cases hm : s.mem p = true
  · simp [writeIfAbsent, hm] at h
    exact Or.inl h
  · simp only [Bool.not_eq_true] at hm
    simp [writeIfAbsent, hm] at h
    exact h

/-! ## foldWIA lemmas -/

theorem foldWIA_nil {α : Type} (pf : α → String) (vf : α → Val)
    (acc : Store × List String) : foldWIA pf vf [] acc = acc := rfl

theorem foldWIA_cons {α : Type} (pf : α → String) (vf : α → Val) (x : α) (rest : List α)
    (acc : Store × List String) :
    foldWIA pf vf (x :: rest) acc = foldWIA pf vf rest (writeIfAbsent (pf x) (vf x) acc) := rfl

theorem foldWIA_mem_mono {α : Type} (pf : α → String) (vf : α → Val) (xs : List α)
    (acc : Store × List String) (q : String) (h : acc.1.mem q = true) :
    ((foldWIA pf vf xs acc).1).mem q = true := by
  induction xs generalizing acc with
  | nil => simpa [foldWIA_nil]
  | cons x rest ih =>
    rw [foldWIA_cons]
    exact ih _ (writeIfAbsent_mem_mono _ _ _ _ h)

theorem foldWIA_mem_self {α : Type} (pf : α → String) (vf : α → Val) (xs : List α)
    (acc : Store × List String) (x : α) (hx : x ∈ xs) :
    ((foldWIA pf vf xs acc).1).mem (pf x) = true := by
  induction xs generalizing acc with
  | nil => simp at hx
  | cons y rest ih =>
    rw [foldWIA_cons]
    rcases List.mem_cons.mp hx with h | h
    · subst h
      exact foldWIA_mem_mono _ _ _ _ _ (writeIfAbsent_mem_self _ _ _)
    · exact ih _ h

theorem foldWIA_id_of_mem {α : Type} (pf : α → String) (vf : α → Val) (xs : List α)
    (acc : Store × List String) (h : ∀ x ∈ xs, acc.1.mem (pf x) = true) :
    foldWIA pf vf xs acc = acc := by
  induction xs generalizing acc with
  | nil => rfl
  | cons y rest ih =>
    rw [foldWIA_cons]
    rw [writeIfAbsent_of_mem _ _ _ (h y (List.mem_cons_self y rest))]
    exact ih acc (fun x hx => h x (List.mem_cons_of_mem y hx))

theorem foldWIA_find_of_mem {α : Type} (pf : α → String) (vf : α → Val) (xs : List α)
    (acc : Store × List String) (q : String) (h : acc.1.mem q = true) :
    ((foldWIA pf vf xs acc).1).find q = acc.1.find q := by
  induction xs generalizing acc with
  | nil => rfl
  | cons x rest ih =>
    rw [foldWIA_cons]
    rw [ih _ (writeIfAbsent_mem_mono _ _ _ _ h)]
    exact writeIfAbsent_find_of_mem _ _ _ _ h

theorem foldWIA_find_ne {α : Type} (pf : α → String) (vf : α → Val) (xs : List α)
    (acc : Store × List String) (q : String) (h : ∀ x ∈ xs, pf x ≠ q) :
    ((foldWIA pf vf xs acc).1).find q = acc.1.find q := by
  induction xs generalizing acc with
  | nil => rfl
  | cons x rest ih =>
    rw [foldWIA_cons]
    rw [ih _ (fun y hy => h y (List.mem_cons_of_mem x hy))]
    exact writeIfAbsent_find_ne _ _ _ _ (fun hh => h x (List.mem_cons_self x rest) hh.symm)

theorem foldWIA_log {α : Type} (pf : α → String) (vf : α → Val) (xs : List α)
    (acc : Store × List String) (q : String) (h : q ∈ (foldWIA pf vf xs acc).2) :
    q ∈ acc.2 ∨ ∃ x ∈ xs, q = pf x := by
  induction xs generalizing acc with
  | nil => exact Or.inl h
  | cons x rest ih =>
    rw [foldWIA_cons] at h
    rcases ih _ h with h1 | ⟨y, hy, hq⟩
    · rcases writeIfAbsent_log _ _ _ _ h1 with h2 | h2
      · exact Or.inl h2
      · exact Or.inr ⟨x, List.mem_cons_self x rest, h2⟩
    · exact Or.inr ⟨y, List.mem_cons_of_mem x hy, hq⟩

/-! ## Counting retained indices (Pose Loader selection policy) -/

theorem min_succ_ite (c cap : Nat) : min (c + 1) cap = min c cap + if c < cap then 1 else 0 := by
  rcases Nat.lt_or_ge c cap with h | h
  · simp only [if_pos h]
    omega
  · simp only [if_neg (Nat.not_lt.mpr h)]
    omega

theorem count_append_singleton (l : List String) (x v : String) :
    (l ++ [x]).count v = l.count v + if v = x then 1 else 0 := by
  by_cases h : v = x <;>
    simp [List.count_append, List.count_cons, List.count_nil, h, eq_comm]

theorem sum_min_count_append (cap : Nat) (l : List String) (x : String) :
    ∑ v ∈ (l ++ [x]).toFinset, min ((l ++ [x]).count v) cap
      = (∑ v ∈ l.toFinset, min (l.count v) cap) + if l.count x < cap then 1 else 0 := by
  have htf : (l ++ [x]).toFinset = insert x l.toFinset := by
    simp [List.toFinset_append, Finset.union_comm, Finset.insert_eq]
  rw [htf]
  by_cases hx : x ∈ l.toFinset
  · rw [Finset.insert_eq_self.mpr hx]
    rw [← Finset.add_sum_erase _ _ hx, ← Finset.add_sum_erase _ _ hx]
    have h1 : ∑ v ∈ l.toFinset.erase x, min ((l ++ [x]).count v) cap
        = ∑ v ∈ l.toFinset.erase x, min (l.count v) cap := by
      refine Finset.sum_congr rfl (fun v hv => ?_)
      have hne : v ≠ x := (Finset.mem_erase.mp hv).1
      rw [count_append_singleton, if_neg hne, Nat.add_zero]
    rw [h1, count_append_singleton, if_pos rfl, min_succ_ite]
    ring
  · rw [Finset.sum_insert hx]
    have hcx : l.count x = 0 := by
      rw [List.count_eq_zero]
      exact fun hmem => hx (List.mem_toFinset.mpr hmem)
    have h1 : ∑ v ∈ l.toFinset, min ((l ++ [x]).count v) cap
        = ∑ v ∈ l.toFinset, min (l.count v) cap := by
      refine Finset.sum_congr rfl (fun v hv => ?_)
      have hne : v ≠ x := fun hh => hx (hh ▸ hv)
      rw [count_append_singleton, if_neg hne, Nat.add_zero]
    rw [h1, count_append_singleton, if_pos rfl, hcx]
    simp only [Nat.zero_add]
    have hmin : min 1 cap = if 0 < cap then 1 else 0 := by
      rcases Nat.eq_zero_or_pos cap with h | h
      · simp [h]
      · simp only [if_pos h]
        omega
    rw [hmin]
    ring

theorem getD_append_self_aux (l : List String) (x d : String) :
    (l ++ [x]).getD l.length d = x := by
  rw [List.getD_eq_getElem?_getD, List.getElem?_append_right (Nat.le_refl _)]
  simp

/-- With no ligand filter, the number of retained indices of one pose source
is the sum, over the distinct entries of its name array, of
`min(count, max_poses)`. -/
theorem keepIdx_none_length (cap : Nat) (l : List String) :
    (keepIdx cap none l).length = ∑ v ∈ l.toFinset, min (l.count v) cap := by
  induction l using List.reverseRecOn with
  | nil => simp [keepIdx]
  | append_singleton l x ih =>
    rw [sum_min_count_append, ← ih]
    simp only [keepIdx, Bool.true_and]
    have hlen : (l ++ [x]).length = l.length + 1 := by simp
    rw [hlen, List.range_succ, List.filter_append]
    have h1 : (List.range l.length).filter
        (fun i => decide (((l ++ [x]).take i).count ((l ++ [x]).getD i "") < cap))
        = (List.range l.length).filter
        (fun i => decide ((l.take i).count (l.getD i "") < cap)) := by
      refine List.filter_congr (fun i hi => ?_)
      have hilt : i < l.length := List.mem_range.mp hi
      rw [List.take_append_of_le_length (Nat.le_of_lt hilt), List.getD_append l [x] "" i hilt]
    rw [h1, List.length_append]
    congr 1
    have h2 : (l ++ [x]).take l.length = l := List.take_left l [x]
    have h3 : (l ++ [x]).getD l.length "" = x := getD_append_self_aux l x ""
    by_cases hc : l.count x < cap
    · simp [List.filter, h2, h3, hc]
    · simp [List.filter, h2, h3, hc]

/-! ## Loader lemmas -/

theorem selectIdx_length {α : Type} (xs : List α) (keep : List Nat) (ys : List α)
    (h : selectIdx xs keep = some ys) : ys.length = keep.length := by
  induction keep generalizing ys with
  | nil =>
    simp [selectIdx] at h
    simp [← h]
  | cons i rest ih =>
    simp only [selectIdx] at h
    cases hg : xs.get? i with
    | none => rw [hg] at h; simp at h
    | some x =>
      rw [hg] at h
      cases hs : selectIdx xs rest with
      | none => rw [hs] at h; simp at h
      | some more =>
        rw [hs] at h
        simp at h
        simp [← h, ih more hs]

theorem namesArtifact_of_loadStrs (f : Features) (s : Store) (pv : String)
    (ns : List String) (h : loadStrs s (f.spath "name" pv) = .ok ns) :
    f.namesArtifact s pv = ns := by
  unfold Features.namesArtifact
  unfold loadStrs at h
  cases hf : s.find (f.spath "name" pv) with
  | none => rw [hf] at h; simp at h
  | some v =>
    rw [hf] at h
    cases v <;> simp_all

/-- All five outputs of a successful per-source load have the length of the
retained-index list, and the name input is the persisted name artifact. -/
theorem loadOne_lengths (f : Features) (s : Store) (w : World)
    (lig : Option (List String)) (pv : String) (out : SingleFeats)
    (h : f.loadOne s w lig pv = .ok out) :
    out.rmsds.length = (keepIdx f.max_poses lig (f.namesArtifact s pv)).length ∧
    out.gscores.length = (keepIdx f.max_poses lig (f.namesArtifact s pv)).length ∧
    out.poses.length = (keepIdx f.max_poses lig (f.namesArtifact s pv)).length ∧
    out.names.length = (keepIdx f.max_poses lig (f.namesArtifact s pv)).length ∧
    out.ifps.length = (keepIdx f.max_poses lig (f.namesArtifact s pv)).length := by
  simp only [Features.loadOne, bind, Except.bind] at h
  cases h1 : loadNums s (f.spath "rmsd" pv) with
  | error e => rw [h1] at h; simp only [] at h; simp at h
  | ok rmsds =>
  rw [h1] at h
  simp only [] at h
  cases h2 : loadNums s (f.spath "gscore" pv) with
  | error e => rw [h2] at h; simp only [] at h; simp at h
  | ok gscores =>
  rw [h2] at h
  simp only [] at h
  cases h3 : loadStrs s (f.spath "name" pv) with
  | error e => rw [h3] at h; simp only [] at h; simp at h
  | ok names =>
  rw [h3] at h
  simp only [] at h
  cases h4 : loadRows s (f.spath "ifp" pv) with
  | error e => rw [h4] at h; simp only [] at h; simp at h
  | ok rows =>
  rw [h4] at h
  simp only [] at h
  cases h5 : groupRows rows with
  | none => rw [h5] at h; simp only [orErr] at h; simp at h
  | some groups =>
  rw [h5] at h
  simp only [orErr] at h
  cases h6 : selectIdx rmsds (keepIdx f.max_poses lig names) with
  | none => rw [h6] at h; simp only [orErr] at h; simp at h
  | some rmsds2 =>
  rw [h6] at h
  simp only [orErr] at h
  cases h7 : selectIdx gscores (keepIdx f.max_poses lig names) with
  | none => rw [h7] at h; simp only [orErr] at h; simp at h
  | some gscores2 =>
  rw [h7] at h
  simp only [orErr] at h
  cases h8 : selectIdx names (keepIdx f.max_poses lig names) with
  | none => rw [h8] at h; simp only [orErr] at h; simp at h
  | some names2 =>
  rw [h8] at h
  simp only [orErr] at h
  cases h9 : selectIdx (w.pvContents pv) (keepIdx f.max_poses lig names) with
  | none => rw [h9] at h; simp only [orErr] at h; simp at h
  | some poses2 =>
  rw [h9] at h
  simp only [orErr] at h
  cases h10 : selectIdx groups (keepIdx f.max_poses lig names) with
  | none => rw [h10] at h; simp only [orErr] at h; simp at h
  | some ifps2 =>
  rw [h10] at h
  simp only [orErr, Except.ok.injEq] at h
  rw [namesArtifact_of_loadStrs f s pv names h3]
  subst h
  exact ⟨selectIdx_length _ _ _ h6, selectIdx_length _ _ _ h7,
    selectIdx_length _ _ _ h9, selectIdx_length _ _ _ h8,
    selectIdx_length _ _ _ h10⟩

/-- Lengths of a successful multi-source load: the five arrays agree, and the
name length is the sum of per-source retained counts. -/
theorem load_lengths (f : Features) (s : Store) (w : World)
    (lig : Option (List String)) (pvs : List String) (out : SingleFeats)
    (h : f.load_single_features s w lig pvs = .ok out) :
    out.rmsds.length = out.names.length ∧ out.gscores.length = out.names.length ∧
    out.poses.length = out.names.length ∧ out.ifps.length = out.names.length ∧
    out.names.length
      = (pvs.map (fun pv => (keepIdx f.max_poses lig (f.namesArtifact s pv)).length)).sum := by
  induction pvs generalizing out with
  | nil =>
    simp only [Features.load_single_features, Except.ok.injEq] at h
    subst h
    simp
  | cons pv rest ih =>
    simp only [Features.load_single_features, bind, Except.bind] at h
    cases h1 : f.loadOne s w lig pv with
    | error e => rw [h1] at h; simp only [] at h; simp at h
    | ok one =>
    rw [h1] at h
    simp only [] at h
    cases h2 : f.load_single_features s w lig rest with
    | error e => rw [h2] at h; simp only [] at h; simp at h
    | ok more =>
    rw [h2] at h
    simp only [Except.ok.injEq] at h
    subst h
    obtain ⟨o1, o2, o3, o4, o5⟩ := loadOne_lengths f s w lig pv one h1
    obtain ⟨m1, m2, m3, m4, m5⟩ := ih more h2
    refine ⟨?_, ?_, ?_, ?_, ?_⟩ <;>
      simp [SingleFeats.append, o1, o2, o3, o4, o5, m1, m2, m3, m4, m5]

theorem loadNums_congr (s s' : Store) (p : String) (h : s'.find p = s.find p) :
    loadNums s' p = loadNums s p := by
  unfold loadNums
  rw [h]

theorem loadStrs_congr (s s' : Store) (p : String) (h : s'.find p = s.find p) :
    loadStrs s' p = loadStrs s p := by
  unfold loadStrs
  rw [h]

theorem loadRows_congr (s s' : Store) (p : String) (h : s'.find p = s.find p) :
    loadRows s' p = loadRows s p := by
  unfold loadRows
  rw [h]

/-- A per-source load depends on the store only through the four artifact
paths of that source. -/
theorem loadOne_congr (f : Features) (s s' : Store) (w : World)
    (lig : Option (List String)) (pv : String)
    (h : ∀ kind ∈ singleKinds, s'.find (f.spath kind pv) = s.find (f.spath kind pv)) :
    f.loadOne s' w lig pv = f.loadOne s w lig pv := by
  have hr := h "rmsd" (by simp [singleKinds])
  have hg := h "gscore" (by simp [singleKinds])
  have hn := h "name" (by simp [singleKinds])
  have hi := h "ifp" (by simp [singleKinds])
  simp only [Features.loadOne]
  rw [loadNums_congr _ _ _ hr, loadNums_congr _ _ _ hg, loadStrs_congr _ _ _ hn,
    loadRows_congr _ _ _ hi]

/-- A multi-source load depends on the store only through the artifact paths
of its sources. -/
theorem load_congr (f : Features) (s s' : Store) (w : World)
    (lig : Option (List String)) (pvs : List String)
    (h : ∀ pv ∈ pvs, ∀ kind ∈ singleKinds,
      s'.find (f.spath kind pv) = s.find (f.spath kind pv)) :
    f.load_single_features s' w lig pvs = f.load_single_features s w lig pvs := by
  induction pvs with
  | nil => rfl
  | cons pv rest ih =>
    simp only [Features.load_single_features]
    rw [loadOne_congr f s s' w lig pv (h pv (List.mem_cons_self pv rest)),
      ih (fun q hq => h q (List.mem_cons_of_mem pv hq))]

theorem count_take_eq_filter_range (l : List String) (a : String) (i : Nat)
    (h : i ≤ l.length) :
    (l.take i).count a
      = ((List.range i).filter (fun j => l.getD j "" == a)).length := by
  induction i with
  | zero => simp
  | succ n ih =>
    have hn : n < l.length := Nat.lt_of_lt_of_le (Nat.lt_succ_self n) h
    have hle : n ≤ l.length := Nat.le_of_lt hn
    rw [List.take_succ, List.range_succ, List.filter_append, List.count_append]
    rw [ih hle, List.length_append]
    congr 1
    have hget : l[n]? = some (l.getD n "") := by
      rw [List.getElem?_eq_getElem hn]
      simp [List.getD_eq_getElem?_getD, List.getElem?_eq_getElem hn]
    rw [hget]
    by_cases hv : l.getD n "" = a
    all_goals simp only [List.getD, List.get?_eq_getElem?] at hv
    · simp [List.filter, List.count_cons, hv]
    · have hvb : (l[n]?.getD "" == a) = false := beq_eq_false_iff_ne.mpr hv
      simp [List.filter, List.count_cons, hvb]

/-- C3: in `load_single_features`, a pose at index `i` of a source is
retained if and only if (a) its name-array entry is admitted by the ligand
filter (or no filter was given), and (b) strictly fewer than `max_poses`
earlier indices `j < i` of the same source carry the same name-array entry;
i.e. the first `max_poses` poses per ligand in file order, with no
reordering (the retained index list is strictly increasing). -/
theorem c3_retention_first_n_per_ligand (cap : Nat) (lig : Option (List String))
    (names : List String) (i : Nat) :
    (i ∈ keepIdx cap lig names ↔
      i < names.length ∧
      (lig = none ∨ ∃ ls, lig = some ls ∧ names.getD i "" ∈ ls) ∧
      ((List.range i).filter (fun j => names.getD j "" == names.getD i "")).length < cap) ∧
    (keepIdx cap lig names).Pairwise (· < ·) := by
  constructor
  · rcases lig with _ | ls
    · simp only [keepIdx, List.mem_filter, List.mem_range, Bool.true_and, decide_eq_true_eq]
      constructor
      · rintro ⟨h1, h2⟩
        refine ⟨h1, Or.inl trivial, ?_⟩
        rw [← count_take_eq_filter_range _ _ _ (Nat.le_of_lt h1)]
        exact h2
      · rintro ⟨h1, _, h3⟩
        refine ⟨h1, ?_⟩
        rw [count_take_eq_filter_range _ _ _ (Nat.le_of_lt h1)]
        exact h3
    · simp only [keepIdx, List.mem_filter, List.mem_range, Bool.and_eq_true,
        decide_eq_true_eq]
      constructor
      · rintro ⟨h1, h2, h3⟩
        refine ⟨h1, Or.inr ⟨ls, rfl, h2⟩, ?_⟩
        rw [← count_take_eq_filter_range _ _ _ (Nat.le_of_lt h1)]
        exact h3
      · rintro ⟨h1, h2, h3⟩
        rcases h2 with h2 | ⟨ls2, hls, hmem⟩
        · exact absurd h2 (by simp)
        · cases hls
          refine ⟨h1, hmem, ?_⟩
          rw [count_take_eq_filter_range _ _ _ (Nat.le_of_lt h1)]
          exact h3
  · exact List.Pairwise.filter _ (List.pairwise_lt_range _)

/-- C4: the five sequences returned by a successful `load_single_features`
call have identical length, and with no ligand filter that length is the sum
over pose sources, and over the distinct ligand names of each source's name
artifact, of `min(count_in_file, max_poses)`. -/
theorem c4_loader_alignment (f : Features) (s : Store) (w : World)
    (pvs : List String) (out : SingleFeats)
    (h : f.load_single_features s w none pvs = .ok out) :
    (out.rmsds.length = out.names.length ∧ out.gscores.length = out.names.length ∧
     out.poses.length = out.names.length ∧ out.ifps.length = out.names.length) ∧
    out.names.length = (pvs.map (fun pv =>
      ∑ v ∈ (f.namesArtifact s pv).toFinset,
        min ((f.namesArtifact s pv).count v) f.max_poses)).sum := by
  obtain ⟨h1, h2, h3, h4, h5⟩ := load_lengths f s w none pvs out h
  refine ⟨⟨h1, h2, h3, h4⟩, ?_⟩
  rw [h5]
  simp only [keepIdx_none_length]

theorem c4_loader_alignment_witness :
    (exFeatures.load_single_features exStoreSingles exWorld none [exPV] = .ok exLoaded) ∧
    ((exLoaded.rmsds.length = exLoaded.names.length ∧
      exLoaded.gscores.length = exLoaded.names.length ∧
      exLoaded.poses.length = exLoaded.names.length ∧
      exLoaded.ifps.length = exLoaded.names.length) ∧
     exLoaded.names.length = ([exPV].map (fun pv =>
       ∑ v ∈ (exFeatures.namesArtifact exStoreSingles pv).toFinset,
         min ((exFeatures.namesArtifact exStoreSingles pv).count v)
           exFeatures.max_poses)).sum) :=
  ⟨rfl,
   c4_loader_alignment exFeatures exStoreSingles exWorld [exPV] exLoaded rfl⟩

/-! ## compute_name (pose identity strings) -/

theorem capAppend_length {α : Type} (cap : Nat) (xs : List α) :
    (capAppend cap xs).length = if cap = 0 then xs.length else min cap xs.length := by
  unfold capAppend
  split <;> simp

theorem capAppend_getD {α : Type} (cap : Nat) (xs : List α) (i : Nat) (d : α)
    (h : i < (capAppend cap xs).length) :
    (capAppend cap xs).getD i d = xs.getD i d := by
  unfold capAppend at h ⊢
  split at h <;> rename_i hc
  · rw [if_pos hc]
  · rw [if_neg hc, List.getD_eq_getElem?_getD, List.getD_eq_getElem?_getD]
    have hcap : i < cap := Nat.lt_of_lt_of_le h (by simp [List.length_take])
    rw [List.getElem?_take_of_lt hcap]

/-- C2 (amended): for every pose source, `compute_name` writes one identity
string per retained pose of the form `{name}_{idx}-to-{suffix}` where `idx`
is the global 0-based `enumerate` index of the pose within the file (it does
not restart at 0 for each ligand), and the array holds `max_poses` entries at
most (all entries when `max_poses = 0`, where the append-then-break test
never fires). -/
theorem c2_name_global_rank (f : Features) (w : World) (pv : String) (i : Nat)
    (h : i < (f.compute_name_list w pv).length) :
    (f.compute_name_list w pv).getD i ""
      = ((w.pvContents pv).getD i ⟨"", 0⟩).name ++ "_" ++ toString i ++ "-to-"
          ++ dockedToOf pv ∧
    (f.compute_name_list w pv).length
      = if f.max_poses = 0 then (w.pvContents pv).length
        else min f.max_poses (w.pvContents pv).length := by
  constructor
  · unfold Features.compute_name_list at h ⊢
    rw [capAppend_getD _ _ _ _ h]
    have hi : i < (w.pvContents pv).length := by
      rw [capAppend_length] at h
      split at h
      · simpa using h
      · exact Nat.lt_of_lt_of_le h (by simp)
    rw [List.getD_eq_getElem?_getD, List.getElem?_map, List.getElem?_enum]
    rw [List.getElem?_eq_getElem hi]
    simp [List.getD_eq_getElem?_getD, List.getElem?_eq_getElem hi]
  · unfold Features.compute_name_list
    rw [capAppend_length]
    simp

theorem c2_name_global_rank_witness :
    3 < (exFeatures.compute_name_list exWorldAB "lig-to-X.sdf.gz").length ∧
    ((exFeatures.compute_name_list exWorldAB "lig-to-X.sdf.gz").getD 3 ""
      = ((exWorldAB.pvContents "lig-to-X.sdf.gz").getD 3 ⟨"", 0⟩).name ++ "_"
          ++ toString 3 ++ "-to-" ++ dockedToOf "lig-to-X.sdf.gz" ∧
     (exFeatures.compute_name_list exWorldAB "lig-to-X.sdf.gz").length
      = if exFeatures.max_poses = 0
        then (exWorldAB.pvContents "lig-to-X.sdf.gz").length
        else min exFeatures.max_poses (exWorldAB.pvContents "lig-to-X.sdf.gz").length) :=
  ⟨by decide, c2_name_global_rank exFeatures exWorldAB "lig-to-X.sdf.gz" 3 (by decide)⟩

/-- C2 counterexample: on the spec's concrete scenario (three poses of `A`
then two of `B`, docked to `X`), the produced ranks are global indices
`B_3`, `B_4`, not the intra-ligand ranks `B_0`, `B_1` the claim requires. -/
theorem c2_name_rank_counterexample :
    exFeatures.compute_name_list exWorldAB "lig-to-X.sdf.gz"
      = ["A_0-to-X", "A_1-to-X", "A_2-to-X", "B_3-to-X", "B_4-to-X"] ∧
    exFeatures.compute_name_list exWorldAB "lig-to-X.sdf.gz"
      ≠ ["A_0-to-X", "A_1-to-X", "A_2-to-X", "B_0-to-X", "B_1-to-X"] := by
  constructor
  · decide
  · decide

/-! ## compute_rmsd (reference RMSD, sentinel and failure behaviour) -/

/-- C6: for a pose source whose filename-derived ligand name has no entry in
the reference table, `compute_rmsd` persists exactly `max_poses` copies of
the sentinel `-1`. -/
theorem c6_missing_reference_sentinel (f : Features) (w : World)
    (native_poses : List (String × String)) (pv : String)
    (h : native_poses.lookup (ligandOf pv) = none) :
    f.compute_rmsd_list w native_poses pv = List.replicate f.max_poses (-1) ∧
    f.artifactVal w native_poses "rmsd" pv
      = .nums (List.replicate f.max_poses (-1)) := by
  refine ⟨?_, ?_⟩ <;> simp [Features.artifactVal, Features.compute_rmsd_list, h]

theorem c6_missing_reference_sentinel_witness :
    ([] : List (String × String)).lookup (ligandOf exPV) = none ∧
    (exFeatures.compute_rmsd_list exWorld [] exPV
        = List.replicate exFeatures.max_poses (-1) ∧
     exFeatures.artifactVal exWorld [] "rmsd" exPV
        = .nums (List.replicate exFeatures.max_poses (-1))) :=
  ⟨rfl, c6_missing_reference_sentinel exFeatures exWorld [] exPV rfl⟩

/-- C5 (amended): when the external geometry-comparison tool invocation fails
for a source that has a reference entry, `compute_rmsd` reports the failure
and persists an empty RMSD array (the initial `rmsds = []`, not the
`max_poses`-long sentinel array) instead of propagating the error; the run
continues. -/
theorem c5_tool_failure_empty (f : Features) (w : World)
    (native_poses : List (String × String)) (pv native : String)
    (h1 : native_poses.lookup (ligandOf pv) = some native)
    (h2 : w.obrms native pv = none) :
    f.compute_rmsd_list w native_poses pv = [] ∧
    f.artifactVal w native_poses "rmsd" pv = .nums [] := by
  refine ⟨?_, ?_⟩ <;> simp [Features.artifactVal, Features.compute_rmsd_list, h1, h2]

theorem c5_tool_failure_empty_witness :
    [("L1", "R/structures/ligands/L1.sdf")].lookup (ligandOf exPV)
      = some "R/structures/ligands/L1.sdf" ∧
    exWorld.obrms "R/structures/ligands/L1.sdf" exPV = none ∧
    (exFeatures.compute_rmsd_list exWorld [("L1", "R/structures/ligands/L1.sdf")] exPV = [] ∧
     exFeatures.artifactVal exWorld [("L1", "R/structures/ligands/L1.sdf")] "rmsd" exPV
        = .nums []) :=
  ⟨by decide, rfl,
   c5_tool_failure_empty exFeatures exWorld [("L1", "R/structures/ligands/L1.sdf")]
     exPV "R/structures/ligands/L1.sdf" (by decide) rfl⟩

/-- C5 counterexample: with a reference entry present and a failing tool, the
persisted array is empty, not `max_poses` copies of `-1`. -/
theorem c5_tool_failure_counterexample :
    exFeatures.compute_rmsd_list exWorld [("L1", "R/structures/ligands/L1.sdf")] exPV = [] ∧
    exFeatures.compute_rmsd_list exWorld [("L1", "R/structures/ligands/L1.sdf")] exPV
      ≠ List.replicate exFeatures.max_poses (-1) := by
  constructor
  · decide
  · decide

/-! ## pv_root attribute (constructor and path) -/

/-- C9 (amended): constructing `Features` with an explicit non-`None`
`pv_root` argument leaves the `pv_root` attribute unset, so every later
`path` call with `base=False` (the default) raises `AttributeError` and the
documented non-default `pv_root` behaviour is unreachable; calls with
`base=True` return `root/name` before the attribute is read and succeed. -/
theorem c9_pv_root_never_assigned (root iv : String) (mp : Nat) (r : String)
    (feats : List String) :
    (Features.init root iv mp (some r) feats).pv_root = none ∧
    (∀ name pv pv2, (Features.init root iv mp (some r) feats).path name false pv pv2
        = .error "AttributeError") ∧
    (∀ name, (Features.init root iv mp (some r) feats).path name true none none
        = .ok (root ++ "/" ++ name)) :=
  ⟨rfl, fun _ _ _ => rfl, fun _ => rfl⟩

/-- C9 counterexample: a `base=True` call on an instance built with an
explicit `pv_root` argument succeeds, refuting "every subsequent call to the
path method raises an attribute-lookup error". -/
theorem c9_path_base_counterexample :
    (Features.init "R" "rd1" 10 (some "P") []).path "x" true none none = .ok "R/x" ∧
    (Features.init "R" "rd1" 10 (some "P") []).path "x" true none none
      ≠ .error "AttributeError" :=
  ⟨rfl, fun h => Except.noConfusion h⟩

/-! ## dock.py skip logic -/

/-- `docking_failed` can never return `true`: the failure-phrase list in the
source is empty, so the `any` is vacuously `False`. -/
theorem docking_failed_false (logExists : Bool) (logtxt : String) :
    docking_failed logExists logtxt = false := by
  unfold docking_failed
  cases logExists <;> simp

/-- C10: `dock` checks existence of the literal unformatted template string,
so when that literal file is absent every ligand's command line is written —
an existing per-ligand docked output (which may be listed in `fs1`) never
triggers a skip; and when the literal-template check fires the loop `return`s
immediately, writing nothing for any ligand of the batch. -/
theorem c10_dock_skip_logic (fs1 fs2 : List String) (readLog : String → String)
    (enhanced : Bool) (recname dockLine : String) (exh : Nat)
    (ligs : List (String × String × String))
    (h1 : fs1.contains dockOutfileTemplate = false)
    (h2 : fs2.contains dockOutfileTemplate = true) :
    dockWrites fs1 readLog enhanced recname dockLine exh ligs
      = ligs.map (fun t => formatDockLine dockLine t.1
          (pyReplace dockOutfileTemplate "{inlig}" t.2.2) exh
          (recname ++ "_" ++ t.2.2 ++ ".log")) ∧
    dockWrites fs2 readLog enhanced recname dockLine exh ligs = [] := by
  constructor
  · induction ligs with
    | nil => rfl
    | cons t rest ih =>
      obtain ⟨lig, r, n⟩ := t
      unfold dockWrites
      rw [h1]
      simp only [Bool.false_eq_true, if_false, docking_failed_false, Bool.and_false,
        List.map_cons]
      rw [ih]
  · cases ligs with
    | nil => rfl
    | cons t rest =>
      obtain ⟨lig, r, n⟩ := t
      unfold dockWrites
      rw [h2]
      simp

theorem c10_dock_skip_logic_witness :
    (["docked/L1-docked.sdf.gz"].contains dockOutfileTemplate = false ∧
     [dockOutfileTemplate].contains dockOutfileTemplate = true) ∧
    (dockWrites ["docked/L1-docked.sdf.gz"] (fun _ => "") false "rec" "cmd {lig} {out} {exh} > {log}" 8
        [("ligands/L1.sdf", "docked", "L1"), ("ligands/L2.sdf", "docked", "L2")]
      = [("ligands/L1.sdf", "docked", "L1"), ("ligands/L2.sdf", "docked", "L2")].map
          (fun t => formatDockLine "cmd {lig} {out} {exh} > {log}" t.1
            (pyReplace dockOutfileTemplate "{inlig}" t.2.2) 8
            ("rec" ++ "_" ++ t.2.2 ++ ".log")) ∧
     dockWrites [dockOutfileTemplate] (fun _ => "") false "rec" "cmd {lig} {out} {exh} > {log}" 8
        [("ligands/L1.sdf", "docked", "L1"), ("ligands/L2.sdf", "docked", "L2")]
      = []) :=
  ⟨⟨by decide, by decide⟩,
   c10_dock_skip_logic ["docked/L1-docked.sdf.gz"] [dockOutfileTemplate] (fun _ => "")
     false "rec" "cmd {lig} {out} {exh} > {log}" 8
     [("ligands/L1.sdf", "docked", "L1"), ("ligands/L2.sdf", "docked", "L2")]
     (by decide) (by decide)⟩

/-! ## Feature view (`get_view`) lemmas -/

theorem maskOf_count (l : List String) (a : String) :
    (maskOf l a).count true = l.count a := by
  induction l with
  | nil => rfl
  | cons x rest ih =>
    by_cases h : x = a
    · simp [maskOf, List.count_cons, h] at ih ⊢
      omega
    · have hb : (x == a) = false := beq_eq_false_iff_ne.mpr h
      simp [maskOf, List.count_cons, hb, h] at ih ⊢
      exact ih

theorem maskOf_length (l : List String) (a : String) :
    (maskOf l a).length = l.length := by
  simp [maskOf]

theorem zip_filter_fst_length {α : Type} (mask : List Bool) (xs : List α)
    (h : xs.length = mask.length) :
    ((mask.zip xs).filter (fun p => p.1)).length = mask.count true := by
  induction mask generalizing xs with
  | nil => simp
  | cons b rest ih =>
    cases xs with
    | nil => simp at h
    | cons x xrest =>
      simp only [List.length_cons, Nat.add_right_cancel_iff] at h
      rw [List.zip_cons_cons]
      cases b
      · simpa [List.filter_cons, List.count_cons] using ih xrest h
      · simpa [List.filter_cons, List.count_cons] using ih xrest h

theorem sliceByMask_of_length {α : Type} (mask : List Bool) (xs : List α)
    (h : xs.length = mask.length) :
    ∃ ys, sliceByMask mask xs = some ys ∧ ys.length = mask.count true := by
  refine ⟨((mask.zip xs).filter (fun p => p.1)).map (fun p => p.2), ?_, ?_⟩
  · unfold sliceByMask
    rw [if_pos h]
  · rw [List.length_map]
    exact zip_filter_fst_length mask xs h

theorem viewScalars_ok (n1 : List String) (g1 r1 : List Int)
    (hgl : g1.length = n1.length) (hrl : r1.length = n1.length)
    (ligands : List String) (hall : ∀ M ∈ ligands, n1.count M ≠ 0) :
    ∃ gs rs, viewScalars n1 g1 r1 ligands = .ok (gs, rs) ∧
      ∀ L ∈ ligands,
        (∃ xs, gs.lookup L = some xs ∧ xs.length = n1.count L) ∧
        (∃ ys, rs.lookup L = some ys ∧ ys.length = n1.count L) := by
  induction ligands with
  | nil => exact ⟨[], [], rfl, by simp⟩
  | cons M rest ih =>
    have hM : n1.count M ≠ 0 := hall M (List.mem_cons_self M rest)
    have hmask : (maskOf n1 M).count true = n1.count M := maskOf_count n1 M
    have hgL : g1.length = (maskOf n1 M).length := by rw [maskOf_length]; exact hgl
    have hrL : r1.length = (maskOf n1 M).length := by rw [maskOf_length]; exact hrl
    obtain ⟨gsM, hgs, hgsl⟩ := sliceByMask_of_length (maskOf n1 M) g1 hgL
    obtain ⟨rsM, hrs, hrsl⟩ := sliceByMask_of_length (maskOf n1 M) r1 hrL
    obtain ⟨gs, rs, hrec, hprop⟩ := ih (fun M2 hm => hall M2 (List.mem_cons_of_mem M hm))
    refine ⟨(M, gsM) :: gs, (M, rsM) :: rs, ?_, ?_⟩
    · unfold viewScalars
      rw [if_neg (by rw [hmask]; exact hM)]
      simp only [bind, Except.bind, hgs, hrs, hrec, orErr]
    · intro L hL
      by_cases hLM : L = M
      · subst hLM
        constructor
        · exact ⟨gsM, by simp [List.lookup], by rw [hgsl, hmask]⟩
        · exact ⟨rsM, by simp [List.lookup], by rw [hrsl, hmask]⟩
      · have hLrest : L ∈ rest := by
          rcases List.mem_cons.mp hL with h | h
          · exact absurd h hLM
          · exact h
        have hb : (L == M) = false := beq_eq_false_iff_ne.mpr hLM
        obtain ⟨⟨xs, hxs, hxl⟩, ⟨ys, hys, hyl⟩⟩ := hprop L hLrest
        constructor
        · exact ⟨xs, by simp [List.lookup, hb, hxs], hxl⟩
        · exact ⟨ys, by simp [List.lookup, hb, hys], hyl⟩

theorem viewScalars_error (n1 : List String) (g1 r1 : List Int)
    (hgl : g1.length = n1.length) (hrl : r1.length = n1.length)
    (ligands : List String) (hex : ∃ M ∈ ligands, n1.count M = 0) :
    ∃ e, viewScalars n1 g1 r1 ligands = .error e := by
  induction ligands with
  | nil => simp at hex
  | cons M rest ih =>
    by_cases hM : n1.count M = 0
    · refine ⟨"AssertionError", ?_⟩
      unfold viewScalars
      rw [if_pos (by rw [maskOf_count]; exact hM)]
    · have hex' : ∃ M2 ∈ rest, n1.count M2 = 0 := by
        obtain ⟨M2, hm2, hc2⟩ := hex
        rcases List.mem_cons.mp hm2 with h | h
        · subst h; exact absurd hc2 hM
        · exact ⟨M2, h, hc2⟩
      obtain ⟨e, he⟩ := ih hex'
      have hgL : g1.length = (maskOf n1 M).length := by rw [maskOf_length]; exact hgl
      have hrL : r1.length = (maskOf n1 M).length := by rw [maskOf_length]; exact hrl
      obtain ⟨gsM, hgs, _⟩ := sliceByMask_of_length (maskOf n1 M) g1 hgL
      obtain ⟨rsM, hrs, _⟩ := sliceByMask_of_length (maskOf n1 M) r1 hrL
      refine ⟨e, ?_⟩
      unfold viewScalars
      rw [if_neg (by rw [maskOf_count]; exact hM)]
      simp only [bind, Except.bind, hgs, hrs, he, orErr]

/-- C8: for every requested ligand `L`, `get_view` builds a boolean mask
over the persisted `name1` array by exact equality; when some requested
ligand has an empty mask the call fails (the `assert sum(mask)`), and when
all requested ligands match, a ligand with `k` matching poses has a mask
with exactly `k` `True` entries and `gscore[L]` / `rmsd[L]` slices of
length `k`. -/
theorem c8_view_ligand_mask (raw : Store) (n1 : List String) (g1 r1 : List Int)
    (ligands : List String) (L : String)
    (hn : raw.find "name1" = some (.strs n1))
    (hg : raw.find "gscore1" = some (.nums g1))
    (hr : raw.find "rmsd1" = some (.nums r1))
    (hgl : g1.length = n1.length) (hrl : r1.length = n1.length)
    (hL : L ∈ ligands) :
    (maskOf n1 L).count true = n1.count L ∧
    (n1.count L = 0 → ∃ e, Features.get_view raw ligands [] = .error e) ∧
    ((∀ M ∈ ligands, n1.count M ≠ 0) →
      ∃ v, Features.get_view raw ligands [] = .ok v ∧
        (∃ xs, v.gscore.lookup L = some xs ∧ xs.length = n1.count L) ∧
        (∃ ys, v.rmsd.lookup L = some ys ∧ ys.length = n1.count L)) := by
  have hln : loadStrs raw "name1" = .ok n1 := by unfold loadStrs; rw [hn]
  have hlg : loadNums raw "gscore1" = .ok g1 := by unfold loadNums; rw [hg]
  have hlr : loadNums raw "rmsd1" = .ok r1 := by unfold loadNums; rw [hr]
  refine ⟨maskOf_count n1 L, ?_, ?_⟩
  · intro h0
    obtain ⟨e, he⟩ := viewScalars_error n1 g1 r1 hgl hrl ligands ⟨L, hL, h0⟩
    refine ⟨e, ?_⟩
    unfold Features.get_view
    simp only [bind, Except.bind, hln, hlg, hlr, he]
  · intro hall
    obtain ⟨gs, rs, hvs, hprop⟩ := viewScalars_ok n1 g1 r1 hgl hrl ligands hall
    refine ⟨⟨gs, rs, []⟩, ?_, ?_⟩
    · unfold Features.get_view
      simp only [bind, Except.bind, hln, hlg, hlr, hvs]
      rfl
    · exact hprop L hL

theorem c8_view_ligand_mask_witness :
    (exRaw.find "name1" = some (.strs ["A", "A", "B"]) ∧
     exRaw.find "gscore1" = some (.nums [1, 2, 3]) ∧
     exRaw.find "rmsd1" = some (.nums [4, 5, 6]) ∧
     "A" ∈ ["A", "B"]) ∧
    ((maskOf ["A", "A", "B"] "A").count true = (["A", "A", "B"] : List String).count "A" ∧
     ((["A", "A", "B"] : List String).count "A" = 0 →
       ∃ e, Features.get_view exRaw ["A", "B"] [] = .error e) ∧
     ((∀ M ∈ ["A", "B"], (["A", "A", "B"] : List String).count M ≠ 0) →
       ∃ v, Features.get_view exRaw ["A", "B"] [] = .ok v ∧
         (∃ xs, v.gscore.lookup "A" = some xs ∧
            xs.length = (["A", "A", "B"] : List String).count "A") ∧
         (∃ ys, v.rmsd.lookup "A" = some ys ∧
            ys.length = (["A", "A", "B"] : List String).count "A"))) :=
  ⟨⟨rfl, rfl, rfl, by decide⟩,
   c8_view_ligand_mask exRaw ["A", "A", "B"] [1, 2, 3] [4, 5, 6] ["A", "B"] "A"
     rfl rfl rfl rfl rfl (by decide)⟩

/-! ## pairPath injectivity and matrix shapes -/

theorem pairPath_eq (f : Features) (n : String) :
    f.pairPath n = f.root ++ "/" ++ n ++ ".npy" := by
  unfold Features.pairPath
  split_ifs with h1 h2
  · subst h1
    apply String.ext
    show f.root.data ++ "/shape.npy".data
      = ((f.root.data ++ "/".data) ++ "shape".data) ++ ".npy".data
    rw [List.append_assoc, List.append_assoc]
    congr 1
  · subst h2
    apply String.ext
    show f.root.data ++ "/mcss.npy".data
      = ((f.root.data ++ "/".data) ++ "mcss".data) ++ ".npy".data
    rw [List.append_assoc, List.append_assoc]
    congr 1
  · rfl

theorem pairPath_inj (f : Features) (a b : String)
    (h : f.pairPath a = f.pairPath b) : a = b := by
  rw [pairPath_eq, pairPath_eq] at h
  have hd : ((f.root.data ++ "/".data) ++ a.data) ++ ".npy".data
      = ((f.root.data ++ "/".data) ++ b.data) ++ ".npy".data :=
    congrArg String.data h
  exact String.ext (List.append_cancel_left (List.append_cancel_right hd))

theorem ifpPairMat_square (w : World) (feat : String) (i1 : List (List IFPRow)) :
    IsSquareOfDim (ifpPairMat w feat i1 i1) i1.length := by
  constructor
  · simp [ifpPairMat]
  · intro row hrow
    simp only [ifpPairMat, List.mem_map] at hrow
    obtain ⟨r1, _, hr⟩ := hrow
    simp [← hr]

theorem mcssMat_square (w : World) (a : List Pose) :
    IsSquareOfDim (mcssMat w a a) a.length := by
  constructor
  · simp [mcssMat]
  · intro row hrow
    simp only [mcssMat, List.mem_map] at hrow
    obtain ⟨x, _, hr⟩ := hrow
    simp [← hr]

theorem transposeRect_shape_square (w : World) (a : List Pose) :
    IsSquareOfDim (transposeRect (shapeMat w a a)) a.length := by
  constructor
  · cases a with
    | nil => simp [transposeRect, shapeMat]
    | cons x rest => simp [transposeRect, shapeMat]
  · intro row hrow
    simp only [transposeRect, List.mem_map] at hrow
    obtain ⟨j, _, hr⟩ := hrow
    simp [← hr, shapeMat]

/-! ## foldWIA written values -/

theorem writeIfAbsent_step_eq (p : String) (v : Val) (a : Store × List String)
    (h : a.1.mem p = false) :
    writeIfAbsent p v a = (a.1.save p v, a.2 ++ [p]) := by
  obtain ⟨s, log⟩ := a
  simp only [writeIfAbsent] at *
  simp [h]

theorem foldWIA_find_invariant {α : Type} (pf : α → String) (vf : α → Val)
    (xs : List α) (acc : Store × List String)
    (hcomp : ∀ x ∈ xs, ∀ y ∈ xs, pf x = pf y → vf x = vf y)
    (hinv : ∀ x ∈ xs, acc.1.mem (pf x) = false ∨ acc.1.find (pf x) = some (vf x)) :
    ∀ x ∈ xs, ((foldWIA pf vf xs acc).1).find (pf x) = some (vf x) := by
  induction xs generalizing acc with
  | nil => intro x hx; simp at hx
  | cons y rest ih =>
    have hyfind : ((writeIfAbsent (pf y) (vf y) acc).1).find (pf y) = some (vf y) := by
      rcases hinv y (List.mem_cons_self y rest) with h | h
      · rw [writeIfAbsent_step_eq _ _ _ h]
        exact Store.find_save_self _ _ _
      · rw [writeIfAbsent_of_mem _ _ _ (by simp [Store.mem, h])]
        exact h
    intro x hx
    rw [foldWIA_cons]
    rcases List.mem_cons.mp hx with hxy | hxr
    · subst hxy
      rw [foldWIA_find_of_mem _ _ _ _ _ (by simp [Store.mem, hyfind])]
      exact hyfind
    · refine ih _ (fun a ha b hb hab => hcomp a (List.mem_cons_of_mem y ha)
        b (List.mem_cons_of_mem y hb) hab) ?_ x hxr
      intro z hz
      by_cases hzy : pf z = pf y
      · right
        rw [hzy, hyfind]
        have : vf z = vf y := hcomp z (List.mem_cons_of_mem y hz) y
          (List.mem_cons_self y rest) hzy
        rw [this]
      · rcases hinv z (List.mem_cons_of_mem y hz) with h | h
        · left
          rcases hm : acc.1.mem (pf y) with hf | ht
          · rw [writeIfAbsent_step_eq _ _ _ hm]
            simp only [Store.mem]
            rw [Store.find_save_ne _ _ _ _ hzy]
            simpa [Store.mem] using h
          · rw [writeIfAbsent_of_mem _ _ _ hm]
            exact h
        · right
          rw [writeIfAbsent_find_of_mem _ _ _ _ (by simp [Store.mem, h])]
          exact h

/-! ## compute_pair_features: self-comparison (C7) -/

theorem Store.find_none_of_mem_false (s : Store) (p : String) (h : s.mem p = false) :
    s.find p = none := by
  unfold Store.mem at h
  cases hf : s.find p with
  | none => rfl
  | some v => rw [hf] at h; simp at h

/-- C7: with `pvs2` omitted, `compute_pair_features` takes collection 2 to
be collection 1 itself: no `rmsd2`/`gscore2`/`name2` artifact is written, and
every pairwise similarity matrix computed in the run (each enabled
interaction type, shape, mcss) is built from collection 1 against itself and
is square with dimension equal to collection 1's pose count. -/
theorem c7_self_comparison (f : Features) (w : World) (s : Store)
    (pvs : List String) (d1 : SingleFeats) (s2 : Store) (log : List String)
    (hfeats : ∀ x ∈ f.ifp_features,
      x ∉ (["rmsd1", "gscore1", "name1", "rmsd2", "gscore2", "name2",
            "shape", "mcss"] : List String))
    (hfreshS : s.mem (f.pairPath "shape") = false)
    (hfreshM : s.mem (f.pairPath "mcss") = false)
    (hfreshF : ∀ x ∈ f.ifp_features, s.mem (f.pairPath x) = false)
    (hload : f.load_single_features s w none pvs = .ok d1)
    (hrun : f.compute_pair_features w s pvs none true true true = .ok (s2, log)) :
    (∀ p ∈ log, p ≠ f.pairPath "rmsd2" ∧ p ≠ f.pairPath "gscore2" ∧ p ≠ f.pairPath "name2") ∧
    s2.find (f.pairPath "shape")
      = some (.mat (transposeRect (shapeMat w d1.poses d1.poses))) ∧
    IsSquareOfDim (transposeRect (shapeMat w d1.poses d1.poses)) d1.poses.length ∧
    s2.find (f.pairPath "mcss") = some (.mat (mcssMat w d1.poses d1.poses)) ∧
    IsSquareOfDim (mcssMat w d1.poses d1.poses) d1.poses.length ∧
    (∀ feat ∈ f.ifp_features,
      s2.find (f.pairPath feat) = some (.mat (ifpPairMat w feat d1.ifps d1.ifps)) ∧
      IsSquareOfDim (ifpPairMat w feat d1.ifps d1.ifps) d1.poses.length) := by
  have hne : ∀ a b : String, a ≠ b → f.pairPath a ≠ f.pairPath b :=
    fun a b hab h => hab (pairPath_inj f a b h)
  -- name the intermediate accumulators of the run
  set A3 : Store × List String :=
    saveLogged (f.pairPath "name1") (.strs d1.names)
      (saveLogged (f.pairPath "gscore1") (.nums d1.gscores)
        (saveLogged (f.pairPath "rmsd1") (.nums d1.rmsds) (s, []))) with hA3
  set vfI : String → Val := fun feat => .mat (ifpPairMat w feat d1.ifps d1.ifps) with hvfI
  set A4 : Store × List String := foldWIA f.pairPath vfI f.ifp_features A3 with hA4
  set vS : Val := .mat (transposeRect (shapeMat w d1.poses d1.poses)) with hvS
  set A5 : Store × List String := writeIfAbsent (f.pairPath "shape") vS A4 with hA5
  set vM : Val := .mat (mcssMat w d1.poses d1.poses) with hvM
  set A6 : Store × List String := writeIfAbsent (f.pairPath "mcss") vM A5 with hA6
  have heq : f.compute_pair_features w s pvs none true true true = Except.ok A6 := by
    unfold Features.compute_pair_features
    rw [hload]
    rfl
  rw [heq] at hrun
  have hpair : A6 = (s2, log) := by
    simpa using hrun
  -- basic facts about A3
  have hA3s : A3.1 = ((s.save (f.pairPath "rmsd1") (.nums d1.rmsds)).save
      (f.pairPath "gscore1") (.nums d1.gscores)).save (f.pairPath "name1") (.strs d1.names) := rfl
  have hA3log : A3.2 = [f.pairPath "rmsd1", f.pairPath "gscore1", f.pairPath "name1"] := rfl
  -- find in A3.1 at paths distinct from the three merged paths
  have hfindA3 : ∀ q : String, q ≠ f.pairPath "rmsd1" → q ≠ f.pairPath "gscore1" →
      q ≠ f.pairPath "name1" → A3.1.find q = s.find q := by
    intro q h1 h2 h3
    rw [hA3s, Store.find_save_ne _ _ _ _ h3, Store.find_save_ne _ _ _ _ h2,
      Store.find_save_ne _ _ _ _ h1]
  -- shape path is untouched until its own write
  have hshapeA3 : A3.1.find (f.pairPath "shape") = none := by
    rw [hfindA3 _ (hne _ _ (by decide)) (hne _ _ (by decide)) (hne _ _ (by decide))]
    exact Store.find_none_of_mem_false s _ hfreshS
  have hmcssA3 : A3.1.find (f.pairPath "mcss") = none := by
    rw [hfindA3 _ (hne _ _ (by decide)) (hne _ _ (by decide)) (hne _ _ (by decide))]
    exact Store.find_none_of_mem_false s _ hfreshM
  have hfeatne : ∀ x ∈ f.ifp_features, ∀ b : String,
      b ∈ (["rmsd1", "gscore1", "name1", "rmsd2", "gscore2", "name2",
            "shape", "mcss"] : List String) → f.pairPath x ≠ f.pairPath b := by
    intro x hx b hb h
    exact hfeats x hx (by rw [pairPath_inj f x b h]; exact hb)
  have hshapeA4 : A4.1.find (f.pairPath "shape") = none := by
    rw [hA4, foldWIA_find_ne _ _ _ _ _
      (fun x hx => hfeatne x hx "shape" (by decide))]
    exact hshapeA3
  have hmcssA4 : A4.1.find (f.pairPath "mcss") = none := by
    rw [hA4, foldWIA_find_ne _ _ _ _ _
      (fun x hx => hfeatne x hx "mcss" (by decide))]
    exact hmcssA3
  have hA5eq : A5 = (A4.1.save (f.pairPath "shape") vS, A4.2 ++ [f.pairPath "shape"]) := by
    rw [hA5, writeIfAbsent_step_eq _ _ _ (by simp [Store.mem, hshapeA4])]
  have hmcssA5 : A5.1.find (f.pairPath "mcss") = none := by
    rw [hA5eq]
    simp only
    rw [Store.find_save_ne _ _ _ _ (hne _ _ (by decide))]
    exact hmcssA4
  have hA6eq : A6 = (A5.1.save (f.pairPath "mcss") vM, A5.2 ++ [f.pairPath "mcss"]) := by
    rw [hA6, writeIfAbsent_step_eq _ _ _ (by simp [Store.mem, hmcssA5])]
  -- store and log of the final state
  have hs2 : s2 = A6.1 := by rw [hpair]
  have hlog : log = A6.2 := by rw [hpair]
  -- alignment: ifps count equals pose count
  have halign : d1.ifps.length = d1.poses.length := by
    obtain ⟨_, _, h3, h4, _⟩ := load_lengths f s w none pvs d1 hload
    rw [h4, h3]
  refine ⟨?_, ?_, transposeRect_shape_square w d1.poses, ?_,
    mcssMat_square w d1.poses, ?_⟩
  · -- no *2 path is ever written
    intro p hp
    rw [hlog, hA6eq] at hp
    simp only [List.mem_append, List.mem_singleton] at hp
    have hp' : p ∈ A4.2 ∨ p = f.pairPath "shape" ∨ p = f.pairPath "mcss" := by
      rcases hp with hp | hp
      · rw [hA5eq] at hp
        simp only [List.mem_append, List.mem_singleton] at hp
        rcases hp with hp | hp
        · exact Or.inl hp
        · exact Or.inr (Or.inl hp)
      · exact Or.inr (Or.inr hp)
    have hp2 : p ∈ A3.2 ∨ (∃ x ∈ f.ifp_features, p = f.pairPath x) ∨
        p = f.pairPath "shape" ∨ p = f.pairPath "mcss" := by
      rcases hp' with hp | hp
      · rcases foldWIA_log _ _ _ _ _ (hA4 ▸ hp) with h | h
        · exact Or.inl h
        · exact Or.inr (Or.inl h)
      · exact Or.inr (Or.inr hp)
    rw [hA3log] at hp2
    rcases hp2 with hp3 | ⟨x, hx, hp3⟩ | hp3 | hp3
    · simp only [List.mem_cons, List.not_mem_nil, or_false] at hp3
      rcases hp3 with h | h | h
      · subst h
        exact ⟨hne "rmsd1" "rmsd2" (by decide), hne "rmsd1" "gscore2" (by decide),
          hne "rmsd1" "name2" (by decide)⟩
      · subst h
        exact ⟨hne "gscore1" "rmsd2" (by decide), hne "gscore1" "gscore2" (by decide),
          hne "gscore1" "name2" (by decide)⟩
      · subst h
        exact ⟨hne "name1" "rmsd2" (by decide), hne "name1" "gscore2" (by decide),
          hne "name1" "name2" (by decide)⟩
    · subst hp3
      exact ⟨hfeatne x hx "rmsd2" (by decide), hfeatne x hx "gscore2" (by decide),
        hfeatne x hx "name2" (by decide)⟩
    · subst hp3
      exact ⟨hne "shape" "rmsd2" (by decide), hne "shape" "gscore2" (by decide),
        hne "shape" "name2" (by decide)⟩
    · subst hp3
      exact ⟨hne "mcss" "rmsd2" (by decide), hne "mcss" "gscore2" (by decide),
        hne "mcss" "name2" (by decide)⟩
  · -- shape artifact
    rw [hs2, hA6eq]
    simp only
    rw [Store.find_save_ne _ _ _ _ (hne _ _ (by decide)), hA5eq]
    simp only
    rw [Store.find_save_self]
  · -- mcss artifact
    rw [hs2, hA6eq]
    simp only
    rw [Store.find_save_self]
  · -- interaction-similarity artifacts
    intro feat hfeat
    have hfresh3 : A3.1.find (f.pairPath feat) = none := by
      rw [hfindA3 _ (hfeatne feat hfeat "rmsd1" (by decide))
        (hfeatne feat hfeat "gscore1" (by decide))
        (hfeatne feat hfeat "name1" (by decide))]
      exact Store.find_none_of_mem_false s _ (hfreshF feat hfeat)
    have hfoundA4 : A4.1.find (f.pairPath feat) = some (vfI feat) := by
      rw [hA4]
      refine foldWIA_find_invariant f.pairPath vfI f.ifp_features A3 ?_ ?_ feat hfeat
      · intro a _ b _ hab
        rw [pairPath_inj f a b hab]
      · intro x hx
        left
        have : A3.1.find (f.pairPath x) = none := by
          rw [hfindA3 _ (hfeatne x hx "rmsd1" (by decide))
            (hfeatne x hx "gscore1" (by decide))
            (hfeatne x hx "name1" (by decide))]
          exact Store.find_none_of_mem_false s _ (hfreshF x hx)
        simp [Store.mem, this]
    constructor
    · rw [hs2, hA6eq]
      simp only
      rw [Store.find_save_ne _ _ _ _ (hfeatne feat hfeat "mcss" (by decide)), hA5eq]
      simp only
      rw [Store.find_save_ne _ _ _ _ (hfeatne feat hfeat "shape" (by decide))]
      exact hfoundA4
    · rw [← halign]
      exact ifpPairMat_square w feat d1.ifps

theorem c7_self_comparison_witness :
    ((∀ x ∈ exFeatures.ifp_features,
        x ∉ (["rmsd1", "gscore1", "name1", "rmsd2", "gscore2", "name2",
              "shape", "mcss"] : List String)) ∧
     exStoreSingles.mem (exFeatures.pairPath "shape") = false ∧
     exStoreSingles.mem (exFeatures.pairPath "mcss") = false ∧
     (∀ x ∈ exFeatures.ifp_features,
        exStoreSingles.mem (exFeatures.pairPath x) = false) ∧
     exFeatures.load_single_features exStoreSingles exWorld none [exPV] = .ok exLoaded ∧
     exFeatures.compute_pair_features exWorld exStoreSingles [exPV] none true true true
       = .ok (exStorePairFull,
           ["R/rmsd1.npy", "R/gscore1.npy", "R/name1.npy", "R/hbond.npy",
            "R/shape.npy", "R/mcss.npy"])) ∧
    ((∀ p ∈ (["R/rmsd1.npy", "R/gscore1.npy", "R/name1.npy", "R/hbond.npy",
            "R/shape.npy", "R/mcss.npy"] : List String),
        p ≠ exFeatures.pairPath "rmsd2" ∧ p ≠ exFeatures.pairPath "gscore2" ∧
        p ≠ exFeatures.pairPath "name2") ∧
     exStorePairFull.find (exFeatures.pairPath "shape")
       = some (.mat (transposeRect (shapeMat exWorld exLoaded.poses exLoaded.poses))) ∧
     IsSquareOfDim (transposeRect (shapeMat exWorld exLoaded.poses exLoaded.poses))
       exLoaded.poses.length ∧
     exStorePairFull.find (exFeatures.pairPath "mcss")
       = some (.mat (mcssMat exWorld exLoaded.poses exLoaded.poses)) ∧
     IsSquareOfDim (mcssMat exWorld exLoaded.poses exLoaded.poses)
       exLoaded.poses.length ∧
     (∀ feat ∈ exFeatures.ifp_features,
       exStorePairFull.find (exFeatures.pairPath feat)
         = some (.mat (ifpPairMat exWorld feat exLoaded.ifps exLoaded.ifps)) ∧
       IsSquareOfDim (ifpPairMat exWorld feat exLoaded.ifps exLoaded.ifps)
         exLoaded.poses.length)) :=
  ⟨⟨by decide, by decide, by decide, by decide, rfl, rfl⟩,
   c7_self_comparison exFeatures exWorld exStoreSingles [exPV] exLoaded exStorePairFull
     ["R/rmsd1.npy", "R/gscore1.npy", "R/name1.npy", "R/hbond.npy",
      "R/shape.npy", "R/mcss.npy"]
     (by decide) (by decide) (by decide) (by decide) rfl rfl⟩

/-! ## compute_pair_features decomposition -/

theorem foldWIA_append {α : Type} (pf : α → String) (vf : α → Val) (xs ys : List α)
    (acc : Store × List String) :
    foldWIA pf vf (xs ++ ys) acc = foldWIA pf vf ys (foldWIA pf vf xs acc) := by
  unfold foldWIA
  rw [List.foldl_append]

theorem foldWIA_map_pair {α : Type} (pf : α → String) (vf : α → Val) (xs : List α)
    (acc : Store × List String) :
    foldWIA Prod.fst Prod.snd (xs.map (fun x => (pf x, vf x))) acc
      = foldWIA pf vf xs acc := by
  unfold foldWIA
  rw [List.foldl_map]

theorem matrixStage_eq (f : Features) (w : World) (d1 d2 : SingleFeats)
    (i sh m : Bool) (acc : Store × List String) :
    (if m then
        writeIfAbsent (f.pairPath "mcss") (.mat (mcssMat w d1.poses d2.poses))
          (if sh then
              writeIfAbsent (f.pairPath "shape")
                (.mat (transposeRect (shapeMat w d2.poses d1.poses)))
                (if i then
                    foldWIA f.pairPath
                      (fun feat => .mat (ifpPairMat w feat d1.ifps d2.ifps))
                      f.ifp_features acc
                  else acc)
            else
              (if i then
                  foldWIA f.pairPath
                    (fun feat => .mat (ifpPairMat w feat d1.ifps d2.ifps))
                    f.ifp_features acc
                else acc))
      else
        (if sh then
            writeIfAbsent (f.pairPath "shape")
              (.mat (transposeRect (shapeMat w d2.poses d1.poses)))
              (if i then
                  foldWIA f.pairPath
                    (fun feat => .mat (ifpPairMat w feat d1.ifps d2.ifps))
                    f.ifp_features acc
                else acc)
          else
            (if i then
                foldWIA f.pairPath
                  (fun feat => .mat (ifpPairMat w feat d1.ifps d2.ifps))
                  f.ifp_features acc
              else acc)))
      = foldWIA Prod.fst Prod.snd (matrixItems f w d1 d2 i sh m) acc := by
  cases i <;> cases sh <;> cases m <;>
    simp [matrixItems, foldWIA_append, foldWIA_map_pair, foldWIA_nil, foldWIA_cons]

theorem cpf_none_eq (f : Features) (w : World) (s : Store) (pvs : List String)
    (i sh m : Bool) (d1 : SingleFeats)
    (hload : f.load_single_features s w none pvs = .ok d1) :
    f.compute_pair_features w s pvs none i sh m
      = .ok (foldWIA Prod.fst Prod.snd (matrixItems f w d1 d1 i sh m)
          (f.merged1Acc s d1)) := by
  unfold Features.compute_pair_features
  rw [hload]
  simp only [bind, Except.bind]
  rw [← matrixStage_eq f w d1 d1 i sh m (f.merged1Acc s d1)]
  rfl

theorem cpf_some_eq (f : Features) (w : World) (s : Store) (pvs qs : List String)
    (i sh m : Bool) (d1 d2 : SingleFeats)
    (hload1 : f.load_single_features s w none pvs = .ok d1)
    (hload2 : f.load_single_features (f.merged1Acc s d1).1 w none qs = .ok d2) :
    f.compute_pair_features w s pvs (some qs) i sh m
      = .ok (foldWIA Prod.fst Prod.snd (matrixItems f w d1 d2 i sh m)
          (f.merged2Acc (f.merged1Acc s d1) d2)) := by
  unfold Features.compute_pair_features
  rw [hload1]
  simp only [bind, Except.bind]
  have hl2 : f.load_single_features
      (saveLogged (f.pairPath "name1") (.strs d1.names)
        (saveLogged (f.pairPath "gscore1") (.nums d1.gscores)
          (saveLogged (f.pairPath "rmsd1") (.nums d1.rmsds) (s, [])))).1 w none qs
      = .ok d2 := hload2
  rw [hl2]
  simp only [bind, Except.bind]
  rw [← matrixStage_eq f w d1 d2 i sh m (f.merged2Acc (f.merged1Acc s d1) d2)]
  rfl

theorem matrixItems_fst_mem (f : Features) (w : World) (d1 d2 : SingleFeats)
    (i sh m : Bool) (e : String × Val) (he : e ∈ matrixItems f w d1 d2 i sh m) :
    e.1 ∈ f.matrixPaths := by
  unfold matrixItems at he
  unfold Features.matrixPaths
  rcases List.mem_append.mp he with h | h
  · rcases List.mem_append.mp h with h1 | h1
    · by_cases hi : i
      · rw [if_pos hi] at h1
        simp only [List.mem_map] at h1
        obtain ⟨feat, hf, he2⟩ := h1
        refine List.mem_append_left _ (List.mem_map.mpr ⟨feat, hf, ?_⟩)
        rw [← he2]
      · rw [if_neg hi] at h1
        simp at h1
    · by_cases hsh : sh
      · rw [if_pos hsh] at h1
        simp only [List.mem_singleton] at h1
        subst h1
        exact List.mem_append_right _ (by simp)
      · rw [if_neg hsh] at h1
        simp at h1
  · by_cases hm : m
    · rw [if_pos hm] at h
      simp only [List.mem_singleton] at h
      subst h
      exact List.mem_append_right _ (by simp)
    · rw [if_neg hm] at h
      simp at h

theorem merged1Acc_fst (f : Features) (s : Store) (d1 : SingleFeats) :
    (f.merged1Acc s d1).1
      = ((s.save (f.pairPath "rmsd1") (.nums d1.rmsds)).save
          (f.pairPath "gscore1") (.nums d1.gscores)).save
          (f.pairPath "name1") (.strs d1.names) := rfl

theorem merged1Acc_find_outside (f : Features) (s : Store) (d1 : SingleFeats)
    (q : String) (h1 : q ≠ f.pairPath "rmsd1") (h2 : q ≠ f.pairPath "gscore1")
    (h3 : q ≠ f.pairPath "name1") :
    (f.merged1Acc s d1).1.find q = s.find q := by
  rw [merged1Acc_fst, Store.find_save_ne _ _ _ _ h3, Store.find_save_ne _ _ _ _ h2,
    Store.find_save_ne _ _ _ _ h1]

theorem merged2Acc_fst (f : Features) (acc : Store × List String) (d2 : SingleFeats) :
    (f.merged2Acc acc d2).1
      = ((acc.1.save (f.pairPath "rmsd2") (.nums d2.rmsds)).save
          (f.pairPath "gscore2") (.nums d2.gscores)).save
          (f.pairPath "name2") (.strs d2.names) := by
  obtain ⟨s, log⟩ := acc
  rfl

theorem merged2Acc_find_outside (f : Features) (acc : Store × List String)
    (d2 : SingleFeats) (q : String) (h1 : q ≠ f.pairPath "rmsd2")
    (h2 : q ≠ f.pairPath "gscore2") (h3 : q ≠ f.pairPath "name2") :
    (f.merged2Acc acc d2).1.find q = acc.1.find q := by
  rw [merged2Acc_fst, Store.find_save_ne _ _ _ _ h3, Store.find_save_ne _ _ _ _ h2,
    Store.find_save_ne _ _ _ _ h1]

/-- The second `compute_pair_features` call on the store the first call
produced: assuming no pose-source artifact path aliases a pair-feature path,
it returns the same store unchanged, and its write log is exactly the
unconditional merged-array saves. -/
theorem cpf_second_call (f : Features) (w : World) (sp : Store)
    (qvs : List String) (i sh m : Bool)
    (s2 : Store) (plog : List String)
    (hA : ∀ pv ∈ qvs, ∀ kind ∈ singleKinds, f.spath kind pv ∉ f.pairPathsAll)
    (hrun : f.compute_pair_features w sp qvs none i sh m = .ok (s2, plog)) :
    f.compute_pair_features w s2 qvs none i sh m = .ok (s2, f.mergedLog none) := by
  have hne : ∀ a b : String, a ≠ b → f.pairPath a ≠ f.pairPath b :=
    fun a b hab h => hab (pairPath_inj f a b h)
  have hmp : ∀ x ∈ f.mergedPaths, x ∈ f.pairPathsAll :=
    fun x hx => List.mem_append_left _ hx
  have hmx : ∀ x ∈ f.matrixPaths, x ∈ f.pairPathsAll :=
    fun x hx => List.mem_append_right _ hx
  cases hload1 : f.load_single_features sp w none qvs with
  | error e =>
    unfold Features.compute_pair_features at hrun
    rw [hload1] at hrun
    simp only [bind, Except.bind] at hrun
    simp at hrun
  | ok d1 =>
  have heq1 := cpf_none_eq f w sp qvs i sh m d1 hload1
  rw [heq1] at hrun
  have hX : foldWIA Prod.fst Prod.snd (matrixItems f w d1 d1 i sh m)
      (f.merged1Acc sp d1) = (s2, plog) := by
    simpa using hrun
  have hs2 : s2 = (foldWIA Prod.fst Prod.snd (matrixItems f w d1 d1 i sh m)
      (f.merged1Acc sp d1)).1 := by rw [hX]
  have hitems : ∀ e ∈ matrixItems f w d1 d1 i sh m, e.1 ∈ f.pairPathsAll :=
    fun e he => hmx _ (matrixItems_fst_mem f w d1 d1 i sh m e he)
  -- the run changes nothing outside the pair-feature paths
  have houtside : ∀ q, q ∉ f.pairPathsAll → s2.find q = sp.find q := by
    intro q hq
    rw [hs2, foldWIA_find_ne _ _ _ _ _
      (fun e he hh => hq (by rw [← hh]; exact hitems e he))]
    exact merged1Acc_find_outside f sp d1 q
      (fun hh => hq (hh ▸ hmp _ (by simp [Features.mergedPaths])))
      (fun hh => hq (hh ▸ hmp _ (by simp [Features.mergedPaths])))
      (fun hh => hq (hh ▸ hmp _ (by simp [Features.mergedPaths])))
  have hload2 : f.load_single_features s2 w none qvs = .ok d1 := by
    rw [load_congr f sp s2 w none qvs
      (fun pv hpv kind hk => houtside _ (hA pv hpv kind hk))]
    exact hload1
  -- the three merged artifacts hold the loaded values in s2
  have hC3r : (f.merged1Acc sp d1).1.find (f.pairPath "rmsd1")
      = some (.nums d1.rmsds) := by
    rw [merged1Acc_fst, Store.find_save_ne _ _ _ _ (hne "rmsd1" "name1" (by decide)),
      Store.find_save_ne _ _ _ _ (hne "rmsd1" "gscore1" (by decide)),
      Store.find_save_self]
  have hC3g : (f.merged1Acc sp d1).1.find (f.pairPath "gscore1")
      = some (.nums d1.gscores) := by
    rw [merged1Acc_fst, Store.find_save_ne _ _ _ _ (hne "gscore1" "name1" (by decide)),
      Store.find_save_self]
  have hC3n : (f.merged1Acc sp d1).1.find (f.pairPath "name1")
      = some (.strs d1.names) := by
    rw [merged1Acc_fst]
    exact Store.find_save_self _ _ _
  have hfr : s2.find (f.pairPath "rmsd1") = some (.nums d1.rmsds) := by
    rw [hs2, foldWIA_find_of_mem _ _ _ _ _ (by simp [Store.mem, hC3r])]
    exact hC3r
  have hfg : s2.find (f.pairPath "gscore1") = some (.nums d1.gscores) := by
    rw [hs2, foldWIA_find_of_mem _ _ _ _ _ (by simp [Store.mem, hC3g])]
    exact hC3g
  have hfn : s2.find (f.pairPath "name1") = some (.strs d1.names) := by
    rw [hs2, foldWIA_find_of_mem _ _ _ _ _ (by simp [Store.mem, hC3n])]
    exact hC3n
  have hpresent : ∀ e ∈ matrixItems f w d1 d1 i sh m, s2.mem e.1 = true := by
    intro e he
    have h := foldWIA_mem_self Prod.fst Prod.snd (matrixItems f w d1 d1 i sh m)
      (f.merged1Acc sp d1) e he
    rw [hX] at h
    exact h
  rw [cpf_none_eq f w s2 qvs i sh m d1 hload2]
  have hC3' : f.merged1Acc s2 d1
      = (s2, [f.pairPath "rmsd1", f.pairPath "gscore1", f.pairPath "name1"]) := by
    unfold Features.merged1Acc
    simp only [saveLogged]
    rw [Store.save_find_self _ _ _ hfr]
    rw [Store.save_find_self _ _ _ hfg]
    rw [Store.save_find_self _ _ _ hfn]
    rfl
  rw [hC3']
  rw [foldWIA_id_of_mem _ _ _ _ (fun e he => hpresent e he)]
  simp [Features.mergedLog]

/-- The second call with an explicit second collection: same conclusion, the
write log also containing the `*2` merged saves. -/
theorem cpf_second_call_some (f : Features) (w : World) (sp : Store)
    (qvs qs : List String) (i sh m : Bool)
    (s2 : Store) (plog : List String)
    (hA : ∀ pv, (pv ∈ qvs ∨ pv ∈ qs) → ∀ kind ∈ singleKinds,
        f.spath kind pv ∉ f.pairPathsAll)
    (hrun : f.compute_pair_features w sp qvs (some qs) i sh m = .ok (s2, plog)) :
    f.compute_pair_features w s2 qvs (some qs) i sh m
      = .ok (s2, f.mergedLog (some qs)) := by
  have hne : ∀ a b : String, a ≠ b → f.pairPath a ≠ f.pairPath b :=
    fun a b hab h => hab (pairPath_inj f a b h)
  have hmp : ∀ x ∈ f.mergedPaths, x ∈ f.pairPathsAll :=
    fun x hx => List.mem_append_left _ hx
  have hmx : ∀ x ∈ f.matrixPaths, x ∈ f.pairPathsAll :=
    fun x hx => List.mem_append_right _ hx
  cases hload1 : f.load_single_features sp w none qvs with
  | error e =>
    unfold Features.compute_pair_features at hrun
    rw [hload1] at hrun
    simp only [bind, Except.bind] at hrun
    simp at hrun
  | ok d1 =>
  cases hload1b : f.load_single_features (f.merged1Acc sp d1).1 w none qs with
  | error e =>
    unfold Features.compute_pair_features at hrun
    rw [hload1] at hrun
    simp only [bind, Except.bind] at hrun
    have hl2e : f.load_single_features
        (saveLogged (f.pairPath "name1") (.strs d1.names)
          (saveLogged (f.pairPath "gscore1") (.nums d1.gscores)
            (saveLogged (f.pairPath "rmsd1") (.nums d1.rmsds) (sp, [])))).1 w none qs
        = .error e := hload1b
    rw [hl2e] at hrun
    simp at hrun
  | ok d2 =>
  have heq1 := cpf_some_eq f w sp qvs qs i sh m d1 d2 hload1 hload1b
  rw [heq1] at hrun
  have hX : foldWIA Prod.fst Prod.snd (matrixItems f w d1 d2 i sh m)
      (f.merged2Acc (f.merged1Acc sp d1) d2) = (s2, plog) := by
    simpa using hrun
  have hs2 : s2 = (foldWIA Prod.fst Prod.snd (matrixItems f w d1 d2 i sh m)
      (f.merged2Acc (f.merged1Acc sp d1) d2)).1 := by rw [hX]
  have hitems : ∀ e ∈ matrixItems f w d1 d2 i sh m, e.1 ∈ f.pairPathsAll :=
    fun e he => hmx _ (matrixItems_fst_mem f w d1 d2 i sh m e he)
  have houtside : ∀ q, q ∉ f.pairPathsAll → s2.find q = sp.find q := by
    intro q hq
    rw [hs2, foldWIA_find_ne _ _ _ _ _
      (fun e he hh => hq (by rw [← hh]; exact hitems e he))]
    rw [merged2Acc_find_outside f _ d2 q
      (fun hh => hq (hh ▸ hmp _ (by simp [Features.mergedPaths])))
      (fun hh => hq (hh ▸ hmp _ (by simp [Features.mergedPaths])))
      (fun hh => hq (hh ▸ hmp _ (by simp [Features.mergedPaths])))]
    exact merged1Acc_find_outside f sp d1 q
      (fun hh => hq (hh ▸ hmp _ (by simp [Features.mergedPaths])))
      (fun hh => hq (hh ▸ hmp _ (by simp [Features.mergedPaths])))
      (fun hh => hq (hh ▸ hmp _ (by simp [Features.mergedPaths])))
  have hB3outside : ∀ q, q ∉ f.pairPathsAll →
      (f.merged1Acc sp d1).1.find q = sp.find q := by
    intro q hq
    exact merged1Acc_find_outside f sp d1 q
      (fun hh => hq (hh ▸ hmp _ (by simp [Features.mergedPaths])))
      (fun hh => hq (hh ▸ hmp _ (by simp [Features.mergedPaths])))
      (fun hh => hq (hh ▸ hmp _ (by simp [Features.mergedPaths])))
  have hload2' : f.load_single_features s2 w none qvs = .ok d1 := by
    rw [load_congr f sp s2 w none qvs
      (fun pv hpv kind hk => houtside _ (hA pv (Or.inl hpv) kind hk))]
    exact hload1
  -- the six merged artifacts hold the loaded values in s2
  have hC3r : (f.merged1Acc sp d1).1.find (f.pairPath "rmsd1")
      = some (.nums d1.rmsds) := by
    rw [merged1Acc_fst, Store.find_save_ne _ _ _ _ (hne "rmsd1" "name1" (by decide)),
      Store.find_save_ne _ _ _ _ (hne "rmsd1" "gscore1" (by decide)),
      Store.find_save_self]
  have hC3g : (f.merged1Acc sp d1).1.find (f.pairPath "gscore1")
      = some (.nums d1.gscores) := by
    rw [merged1Acc_fst, Store.find_save_ne _ _ _ _ (hne "gscore1" "name1" (by decide)),
      Store.find_save_self]
  have hC3n : (f.merged1Acc sp d1).1.find (f.pairPath "name1")
      = some (.strs d1.names) := by
    rw [merged1Acc_fst]
    exact Store.find_save_self _ _ _
  have hC6r1 : (f.merged2Acc (f.merged1Acc sp d1) d2).1.find (f.pairPath "rmsd1")
      = some (.nums d1.rmsds) := by
    rw [merged2Acc_find_outside f _ d2 _ (hne "rmsd1" "rmsd2" (by decide))
      (hne "rmsd1" "gscore2" (by decide)) (hne "rmsd1" "name2" (by decide))]
    exact hC3r
  have hC6g1 : (f.merged2Acc (f.merged1Acc sp d1) d2).1.find (f.pairPath "gscore1")
      = some (.nums d1.gscores) := by
    rw [merged2Acc_find_outside f _ d2 _ (hne "gscore1" "rmsd2" (by decide))
      (hne "gscore1" "gscore2" (by decide)) (hne "gscore1" "name2" (by decide))]
    exact hC3g
  have hC6n1 : (f.merged2Acc (f.merged1Acc sp d1) d2).1.find (f.pairPath "name1")
      = some (.strs d1.names) := by
    rw [merged2Acc_find_outside f _ d2 _ (hne "name1" "rmsd2" (by decide))
      (hne "name1" "gscore2" (by decide)) (hne "name1" "name2" (by decide))]
    exact hC3n
  have hC6r2 : (f.merged2Acc (f.merged1Acc sp d1) d2).1.find (f.pairPath "rmsd2")
      = some (.nums d2.rmsds) := by
    rw [merged2Acc_fst, Store.find_save_ne _ _ _ _ (hne "rmsd2" "name2" (by decide)),
      Store.find_save_ne _ _ _ _ (hne "rmsd2" "gscore2" (by decide)),
      Store.find_save_self]
  have hC6g2 : (f.merged2Acc (f.merged1Acc sp d1) d2).1.find (f.pairPath "gscore2")
      = some (.nums d2.gscores) := by
    rw [merged2Acc_fst, Store.find_save_ne _ _ _ _ (hne "gscore2" "name2" (by decide)),
      Store.find_save_self]
  have hC6n2 : (f.merged2Acc (f.merged1Acc sp d1) d2).1.find (f.pairPath "name2")
      = some (.strs d2.names) := by
    rw [merged2Acc_fst]
    exact Store.find_save_self _ _ _
  have hfr1 : s2.find (f.pairPath "rmsd1") = some (.nums d1.rmsds) := by
    rw [hs2, foldWIA_find_of_mem _ _ _ _ _ (by simp [Store.mem, hC6r1])]
    exact hC6r1
  have hfg1 : s2.find (f.pairPath "gscore1") = some (.nums d1.gscores) := by
    rw [hs2, foldWIA_find_of_mem _ _ _ _ _ (by simp [Store.mem, hC6g1])]
    exact hC6g1
  have hfn1 : s2.find (f.pairPath "name1") = some (.strs d1.names) := by
    rw [hs2, foldWIA_find_of_mem _ _ _ _ _ (by simp [Store.mem, hC6n1])]
    exact hC6n1
  have hfr2 : s2.find (f.pairPath "rmsd2") = some (.nums d2.rmsds) := by
    rw [hs2, foldWIA_find_of_mem _ _ _ _ _ (by simp [Store.mem, hC6r2])]
    exact hC6r2
  have hfg2 : s2.find (f.pairPath "gscore2") = some (.nums d2.gscores) := by
    rw [hs2, foldWIA_find_of_mem _ _ _ _ _ (by simp [Store.mem, hC6g2])]
    exact hC6g2
  have hfn2 : s2.find (f.pairPath "name2") = some (.strs d2.names) := by
    rw [hs2, foldWIA_find_of_mem _ _ _ _ _ (by simp [Store.mem, hC6n2])]
    exact hC6n2
  have hpresent : ∀ e ∈ matrixItems f w d1 d2 i sh m, s2.mem e.1 = true := by
    intro e he
    have h := foldWIA_mem_self Prod.fst Prod.snd (matrixItems f w d1 d2 i sh m)
      (f.merged2Acc (f.merged1Acc sp d1) d2) e he
    rw [hX] at h
    exact h
  have hC3' : f.merged1Acc s2 d1
      = (s2, [f.pairPath "rmsd1", f.pairPath "gscore1", f.pairPath "name1"]) := by
    unfold Features.merged1Acc
    simp only [saveLogged]
    rw [Store.save_find_self _ _ _ hfr1]
    rw [Store.save_find_self _ _ _ hfg1]
    rw [Store.save_find_self _ _ _ hfn1]
    rfl
  have hload2'' : f.load_single_features (f.merged1Acc s2 d1).1 w none qs = .ok d2 := by
    rw [hC3']
    show f.load_single_features s2 w none qs = .ok d2
    rw [load_congr f (f.merged1Acc sp d1).1 s2 w none qs
      (fun pv hpv kind hk => by
        rw [houtside _ (hA pv (Or.inr hpv) kind hk),
          ← hB3outside _ (hA pv (Or.inr hpv) kind hk)])]
    exact hload1b
  rw [cpf_some_eq f w s2 qvs qs i sh m d1 d2 hload2' hload2'']
  rw [hC3']
  have hC6' : f.merged2Acc
      (s2, [f.pairPath "rmsd1", f.pairPath "gscore1", f.pairPath "name1"]) d2
      = (s2, [f.pairPath "rmsd1", f.pairPath "gscore1", f.pairPath "name1",
              f.pairPath "rmsd2", f.pairPath "gscore2", f.pairPath "name2"]) := by
    unfold Features.merged2Acc
    simp only [saveLogged]
    rw [Store.save_find_self _ _ _ hfr2]
    rw [Store.save_find_self _ _ _ hfg2]
    rw [Store.save_find_self _ _ _ hfn2]
    rfl
  rw [hC6']
  rw [foldWIA_id_of_mem _ _ _ _ (fun e he => hpresent e he)]
  simp [Features.mergedLog]

theorem csf_mem_all (f : Features) (w : World) (pvs : List String)
    (native : List (String × String)) (s : Store) :
    ∀ pv ∈ pvs, ∀ kind ∈ singleKinds,
      ((f.compute_single_features w pvs native s).1).mem (f.spath kind pv) = true := by
  intro pv hpv kind hk
  simp only [singleKinds, List.mem_cons, List.not_mem_nil, or_false] at hk
  unfold Features.compute_single_features Features.computeLoop
  rcases hk with h | h | h | h
  · subst h
    exact foldWIA_mem_mono _ _ _ _ _ (foldWIA_mem_self _ _ _ _ pv hpv)
  · subst h
    exact foldWIA_mem_mono _ _ _ _ _ (foldWIA_mem_mono _ _ _ _ _
      (foldWIA_mem_mono _ _ _ _ _ (foldWIA_mem_self _ _ _ _ pv hpv)))
  · subst h
    exact foldWIA_mem_mono _ _ _ _ _ (foldWIA_mem_mono _ _ _ _ _
      (foldWIA_mem_self _ _ _ _ pv hpv))
  · subst h
    exact foldWIA_mem_self _ _ _ _ pv hpv

/-- A second `compute_single_features` call on the store the first call
produced performs no writes and leaves the store unchanged. -/
theorem csf_idem (f : Features) (w : World) (pvs : List String)
    (native : List (String × String)) (s s1 : Store) (log1 : List String)
    (h : f.compute_single_features w pvs native s = (s1, log1)) :
    f.compute_single_features w pvs native s1 = (s1, []) := by
  have hmem : ∀ pv ∈ pvs, ∀ kind ∈ singleKinds, s1.mem (f.spath kind pv) = true := by
    intro pv hpv kind hk
    have hh := csf_mem_all f w pvs native s pv hpv kind hk
    rw [h] at hh
    exact hh
  unfold Features.compute_single_features Features.computeLoop
  rw [foldWIA_id_of_mem _ _ _ (s1, [])
    (fun pv hpv => hmem pv hpv "gscore" (by simp [singleKinds]))]
  rw [foldWIA_id_of_mem _ _ _ (s1, [])
    (fun pv hpv => hmem pv hpv "name" (by simp [singleKinds]))]
  rw [foldWIA_id_of_mem _ _ _ (s1, [])
    (fun pv hpv => hmem pv hpv "rmsd" (by simp [singleKinds]))]
  rw [foldWIA_id_of_mem _ _ _ (s1, [])
    (fun pv hpv => hmem pv hpv "ifp" (by simp [singleKinds]))]

/-- C1 (amended): with all artifacts already cached, a second
`compute_single_features` call performs no recomputation (its write log is
empty) and leaves the store byte-identical; a second `compute_pair_features`
call leaves the store byte-identical but unconditionally re-loads and
re-writes exactly the merged `rmsd1`/`gscore1`/`name1` (and `*2` when a
second collection is given) arrays — its write log is exactly those merged
paths — while the pairwise similarity matrices are cache hits and are not
recomputed.  The pair-feature part assumes no pose-source artifact path
aliases a pair-feature path. -/
theorem c1_second_call (f : Features) (w : World)
    (pvs : List String) (native : List (String × String)) (s s1 : Store)
    (log1 : List String) (sp : Store) (qvs : List String)
    (qvs2 : Option (List String)) (i sh m : Bool)
    (s2 : Store) (plog : List String)
    (hcsf : f.compute_single_features w pvs native s = (s1, log1))
    (hA : ∀ pv, (pv ∈ qvs ∨ ∃ qss, qvs2 = some qss ∧ pv ∈ qss) →
        ∀ kind ∈ singleKinds, f.spath kind pv ∉ f.pairPathsAll)
    (hcpf : f.compute_pair_features w sp qvs qvs2 i sh m = .ok (s2, plog)) :
    f.compute_single_features w pvs native s1 = (s1, []) ∧
    f.compute_pair_features w s2 qvs qvs2 i sh m = .ok (s2, f.mergedLog qvs2) := by
  refine ⟨csf_idem f w pvs native s s1 log1 hcsf, ?_⟩
  cases qvs2 with
  | none =>
    exact cpf_second_call f w sp qvs i sh m s2 plog
      (fun pv hpv kind hk => hA pv (Or.inl hpv) kind hk) hcpf
  | some qs =>
    refine cpf_second_call_some f w sp qvs qs i sh m s2 plog ?_ hcpf
    intro pv hpv kind hk
    rcases hpv with h | h
    · exact hA pv (Or.inl h) kind hk
    · exact hA pv (Or.inr ⟨qs, rfl, h⟩) kind hk

/-- C1 counterexample: with every artifact already cached (the store produced
by a first `compute_single_features` plus a first `compute_pair_features`),
the second `compute_pair_features` call still has a non-empty write log — it
re-saves the merged `rmsd1`/`gscore1`/`name1` arrays — so "the second call
performs no recomputation" is false (the store does stay byte-identical). -/
theorem c1_recompute_counterexample :
    exFeatures.compute_pair_features exWorld exStorePair [exPV] none false false false
      = .ok (exStorePair, ["R/rmsd1.npy", "R/gscore1.npy", "R/name1.npy"]) ∧
    (["R/rmsd1.npy", "R/gscore1.npy", "R/name1.npy"] : List String) ≠ [] := by
  constructor
  · rfl
  · decide

theorem c1_second_call_witness :
    (exFeatures.compute_single_features exWorld [exPV] [] []
       = (exStoreSingles,
          ["R/docking/L1-to-X_gscore.npy", "R/docking/L1-to-X_name.npy",
           "R/docking/L1-to-X_rmsd.npy", "R/docking/L1-to-X_ifp_rd1.csv"]) ∧
     exFeatures.compute_pair_features exWorld exStoreSingles [exPV] none false false false
       = .ok (exStorePair, ["R/rmsd1.npy", "R/gscore1.npy", "R/name1.npy"])) ∧
    (exFeatures.compute_single_features exWorld [exPV] [] exStoreSingles
       = (exStoreSingles, []) ∧
     exFeatures.compute_pair_features exWorld exStorePair [exPV] none false false false
       = .ok (exStorePair, exFeatures.mergedLog none)) :=
  ⟨⟨rfl, rfl⟩,
   c1_second_call exFeatures exWorld [exPV] [] [] exStoreSingles
     ["R/docking/L1-to-X_gscore.npy", "R/docking/L1-to-X_name.npy",
      "R/docking/L1-to-X_rmsd.npy", "R/docking/L1-to-X_ifp_rd1.csv"]
     exStoreSingles [exPV] none false false false exStorePair
     ["R/rmsd1.npy", "R/gscore1.npy", "R/name1.npy"]
     rfl
     (by
       intro pv hpv kind hk
       rcases hpv with h | ⟨qss, hq, _⟩
       · rw [List.mem_singleton] at h
         subst h
         simp only [singleKinds, List.mem_cons, List.not_mem_nil, or_false] at hk
         rcases hk with h | h | h | h <;> subst h <;> decide
       · exact absurd hq (by simp))
     rfl⟩
